import Mathlib

/-!
Shallow embedding of the chess-with-llm repository core, for checking the
frozen claims list against the code.

Sources embedded here:
- src/src/types/Chess.ts (data model)
- src/src/ChessLogic/ChessGame.ts, shipped inside
  src/src/ChessLogic/agents/RandomAgent.ts (rules engine)
- src/src/ChessLogic/agents/CompressedMinimax.ts (budgeted minimax core)
- src/src/ChessLogic/agents/LlmMinimax.ts (LLM oracle tasks: description,
  evaluation, successor proposal)

Modelling conventions, stated once:
- TypeScript numbers are modelled as rationals; the only special values the
  search can produce are the infinities used by Math.max / Math.min and by
  the alpha-beta window, modelled by the type XQ below.
- The asynchronous code is single-process cooperative async; it is modelled
  by sequential state passing.  A promise that has been created is modelled
  by its eventual settled outcome (an Except value).  An exception thrown
  inside an async promise executor that is not routed through reject leaves
  the promise unsettled forever in JavaScript; that outcome is modelled by
  the distinguished error SearchError.hung.
- Fallible code returns Except.  A TypeScript throw is an Except.error.
- Loops that the source bounds only through a mutable counter are given an
  explicit fuel argument so that every definition is a total, executable
  function; the fuel never runs out on the executions the source intends.
-/

/-! # Data model (src/src/types/Chess.ts) -/

inductive PieceType where
  | pawn
  | rook
  | knight
  | bishop
  | queen
  | king
deriving DecidableEq

inductive PlayerColor where
  | white
  | black
deriving DecidableEq

/-- A chess piece.  The TypeScript field justMoved2 is an optional boolean
that every consumer reads only for truthiness, so the absent value is
identified with false. -/
structure Piece where
  type : PieceType
  color : PlayerColor
  hasMoved : Bool
  justMoved2 : Bool := false
deriving DecidableEq

/-- CellState from Chess.ts: a cell holds a piece or the literal "empty",
modelled as an Option. -/
structure CellState where
  piece : Option Piece
deriving DecidableEq

def blankCell : CellState := { piece := none }

/-- Move from Chess.ts.  The optional boolean flags default to false, the
truthiness the source reads for an absent field. -/
structure Move where
  fromPos : Nat × Nat
  toPos : Nat × Nat
  algebraic : String
  enPassant : Bool := false
  castling : Bool := false
  isPawnMoving2 : Bool := false
  promotion : Option PieceType := none
deriving DecidableEq

/-- GameState from Chess.ts: side to move, an 8x8 grid of cells stored as a
list of rows (row 0 is the white back rank), and the ordered move history. -/
structure GameState where
  turn : PlayerColor
  boardState : List (List CellState)
  moveHistory : List Move
deriving DecidableEq

inductive EndgameState where
  | checkmateWhite
  | checkmateBlack
  | draw
  | inProgress
deriving DecidableEq

/-! # Rules engine (ChessGame.ts)

Each definition mirrors one method of the ChessGame class.  The class keeps
the game state in a mutable field; here every method takes the state as an
explicit argument and the mutating methods return the updated state.  Array
reads that the source performs only behind an in-bounds check are modelled
with a default of blankCell. -/

def getCell (board : List (List CellState)) (row col : Nat) : CellState :=
  (((board.get? row).getD []).get? col).getD blankCell

def setCellPiece (board : List (List CellState)) (row col : Nat)
    (p : Option Piece) : List (List CellState) :=
  board.set row (((board.get? row).getD []).set col { piece := p })

def linearDirections : List (Int × Int) :=
  [(1, 0), (-1, 0), (0, 1), (0, -1)]

def diagonalDirections : List (Int × Int) :=
  [(1, 1), (-1, -1), (1, -1), (-1, 1)]

def knightDirections : List (Int × Int) :=
  [(2, 1), (2, -1), (-2, 1), (-2, -1), (1, 2), (1, -2), (-1, 2), (-1, -2)]

/-- getPosInDirection: offsets a square by a direction, returning none when
the result leaves the 8x8 board. -/
def getPosInDirection (position : Nat × Nat) (direction : Int × Int) :
    Option (Nat × Nat) :=
  let newRow : Int := (position.1 : Int) + direction.1
  let newCol : Int := (position.2 : Int) + direction.2
  if newRow < 0 || newRow > 7 || newCol < 0 || newCol > 7 then
    none
  else
    some (newRow.toNat, newCol.toNat)

def isCellEmpty (gs : GameState) (position : Nat × Nat) : Bool :=
  (getCell gs.boardState position.1 position.2).piece = none

def isCellEnemy (gs : GameState) (position : Nat × Nat)
    (color : PlayerColor) : Bool :=
  match (getCell gs.boardState position.1 position.2).piece with
  | none => false
  | some p => p.color ≠ color

/-- convertPositionToString: row 0 is rank 1, column 0 is file a. -/
def convertPositionToString (position : Nat × Nat) : String :=
  let rowString := toString (position.1 + 1)
  let colString := String.singleton (Char.ofNat (97 + position.2))
  colString ++ rowString

def convertPieceTypeToChar : PieceType → String
  | .pawn => ""
  | .rook => "R"
  | .knight => "N"
  | .bishop => "B"
  | .queen => "Q"
  | .king => "K"

/-- A move before annotateMove fills in the algebraic field
(Omit of Move and "algebraic" in the source). -/
structure PreMove where
  fromPos : Nat × Nat
  toPos : Nat × Nat
  enPassant : Bool := false
  castling : Bool := false
  isPawnMoving2 : Bool := false
  promotion : Option PieceType := none

def annotateCastlingMove (m : PreMove) : Move :=
  if m.toPos.2 = 2 then
    { fromPos := m.fromPos, toPos := m.toPos, algebraic := "0-0-0"
      enPassant := m.enPassant, castling := m.castling
      isPawnMoving2 := m.isPawnMoving2, promotion := m.promotion }
  else
    { fromPos := m.fromPos, toPos := m.toPos, algebraic := "0-0"
      enPassant := m.enPassant, castling := m.castling
      isPawnMoving2 := m.isPawnMoving2, promotion := m.promotion }

/-- annotateMove: derives the algebraic string from the pre-move board.  The
source throws when the from cell is empty; the generators below only call it
with the moving piece present, so that unreachable branch is modelled by an
empty algebraic string. -/
def annotateMove (gs : GameState) (m : PreMove) : Move :=
  if m.castling then
    annotateCastlingMove m
  else
    match (getCell gs.boardState m.fromPos.1 m.fromPos.2).piece with
    | none =>
      { fromPos := m.fromPos, toPos := m.toPos, algebraic := ""
        enPassant := m.enPassant, castling := m.castling
        isPawnMoving2 := m.isPawnMoving2, promotion := m.promotion }
    | some pieceMoving =>
      let capturing : Bool :=
        (getCell gs.boardState m.toPos.1 m.toPos.2).piece ≠ none
      let pieceChar := convertPieceTypeToChar pieceMoving.type
      let toPositionString := convertPositionToString m.toPos
      let capturingChar := if capturing then "x" else ""
      let promotionChar :=
        match m.promotion with
        | some p => "=" ++ convertPieceTypeToChar p
        | none => ""
      { fromPos := m.fromPos, toPos := m.toPos
        algebraic := pieceChar ++ capturingChar ++ toPositionString ++ promotionChar
        enPassant := m.enPassant, castling := m.castling
        isPawnMoving2 := m.isPawnMoving2, promotion := m.promotion }

/-- getMovesInDirection: slides from startPosition along direction until
blocked, capturing at most one enemy.  The walk is bounded by the board
diagonal, so a fuel of 8 steps is exact; the source loops until
getPosInDirection returns undefined or a piece blocks. -/
def getMovesInDirection (gs : GameState) (pieceColor : PlayerColor)
    (startPosition : Nat × Nat) (direction : Int × Int) :
    Nat → Nat × Nat → List Move
  | 0, _ => []
  | fuel + 1, current =>
    match getPosInDirection current direction with
    | none => []
    | some newPos =>
      if isCellEmpty gs newPos then
        annotateMove gs { fromPos := startPosition, toPos := newPos } ::
          getMovesInDirection gs pieceColor startPosition direction fuel newPos
      else if isCellEnemy gs newPos pieceColor then
        [annotateMove gs { fromPos := startPosition, toPos := newPos }]
      else
        []

/-- getPawnMoves.  The source throws when the cell is not a pawn; the
callers only reach it through a pawn, so that branch yields no moves. -/
def getPawnMoves (gs : GameState) (position : Nat × Nat) : List Move :=
  match (getCell gs.boardState position.1 position.2).piece with
  | none => []
  | some piece =>
    if piece.type ≠ PieceType.pawn then []
    else
      let direction : Int := if piece.color = PlayerColor.white then 1 else -1
      let forwardPos := getPosInDirection position (direction, 0)
      let leftDiagonalPos := getPosInDirection position (direction, -1)
      let rightDiagonalPos := getPosInDirection position (direction, 1)
      let forwardMoves : List Move :=
        match forwardPos with
        | some fp =>
          if isCellEmpty gs fp then
            annotateMove gs { fromPos := position, toPos := fp } ::
              (if !piece.hasMoved then
                match getPosInDirection position (direction * 2, 0) with
                | some dfc =>
                  if isCellEmpty gs dfc then
                    [annotateMove gs
                      { fromPos := position, toPos := dfc, isPawnMoving2 := true }]
                  else []
                | none => []
              else [])
          else []
        | none => []
      let leftCaptureMoves : List Move :=
        match leftDiagonalPos with
        | some lp =>
          if isCellEnemy gs lp piece.color then
            [annotateMove gs { fromPos := position, toPos := lp }]
          else []
        | none => []
      let rightCaptureMoves : List Move :=
        match rightDiagonalPos with
        | some rp =>
          if isCellEnemy gs rp piece.color then
            [annotateMove gs { fromPos := position, toPos := rp }]
          else []
        | none => []
      let enPassantMoves : List Move :=
        if (piece.color = PlayerColor.white && position.1 = 4) ||
            (piece.color = PlayerColor.black && position.1 = 3) then
          (match getPosInDirection position (0, -1), leftDiagonalPos with
            | some leftPos, some ldp =>
              match (getCell gs.boardState leftPos.1 leftPos.2).piece with
              | some lp =>
                if lp.type = PieceType.pawn && lp.color ≠ piece.color &&
                    lp.justMoved2 then
                  [annotateMove gs
                    { fromPos := position, toPos := ldp, enPassant := true }]
                else []
              | none => []
            | _, _ => []) ++
          (match getPosInDirection position (0, 1), rightDiagonalPos with
            | some rightPos, some rdp =>
              match (getCell gs.boardState rightPos.1 rightPos.2).piece with
              | some rp =>
                if rp.type = PieceType.pawn && rp.color ≠ piece.color &&
                    rp.justMoved2 then
                  [annotateMove gs
                    { fromPos := position, toPos := rdp, enPassant := true }]
                else []
              | none => []
            | _, _ => [])
        else []
      forwardMoves ++ leftCaptureMoves ++ rightCaptureMoves ++ enPassantMoves

/-- getRookMoves: slides in the four linear directions.  Empty cell at the
position is unreachable from the callers and yields no moves. -/
def getRookMoves (gs : GameState) (position : Nat × Nat) : List Move :=
  match (getCell gs.boardState position.1 position.2).piece with
  | none => []
  | some piece =>
    linearDirections.foldl
      (fun acc d => acc ++ getMovesInDirection gs piece.color position d 8 position) []

def getBishopMoves (gs : GameState) (position : Nat × Nat) : List Move :=
  match (getCell gs.boardState position.1 position.2).piece with
  | none => []
  | some piece =>
    diagonalDirections.foldl
      (fun acc d => acc ++ getMovesInDirection gs piece.color position d 8 position) []

def getQueenMoves (gs : GameState) (position : Nat × Nat) : List Move :=
  match (getCell gs.boardState position.1 position.2).piece with
  | none => []
  | some piece =>
    (linearDirections.foldl
      (fun acc d => acc ++ getMovesInDirection gs piece.color position d 8 position) []) ++
    (diagonalDirections.foldl
      (fun acc d => acc ++ getMovesInDirection gs piece.color position d 8 position) [])

def getKnightMoves (gs : GameState) (position : Nat × Nat) : List Move :=
  match (getCell gs.boardState position.1 position.2).piece with
  | none => []
  | some piece =>
    knightDirections.foldl
      (fun acc d =>
        match getPosInDirection position d with
        | some newPos =>
          if isCellEmpty gs newPos || isCellEnemy gs newPos piece.color then
            acc ++ [annotateMove gs { fromPos := position, toPos := newPos }]
          else acc
        | none => acc) []

/-- getKingMoves.  Note that the source only iterates the four linear
directions for ordinary king steps (no diagonal king moves), and the
castling generation checks only emptiness of the squares between king and
rook, not attacks on them. -/
def getKingMoves (gs : GameState) (position : Nat × Nat) : List Move :=
  match (getCell gs.boardState position.1 position.2).piece with
  | none => []
  | some piece =>
    if piece.type ≠ PieceType.king then []
    else
      let normalMoves : List Move :=
        linearDirections.foldl
          (fun acc d =>
            match getPosInDirection position d with
            | some newPos =>
              if isCellEmpty gs newPos || isCellEnemy gs newPos piece.color then
                acc ++ [annotateMove gs { fromPos := position, toPos := newPos }]
              else acc
            | none => acc) []
      if piece.hasMoved then normalMoves
      else
        let row := position.1
        let leftCastle : List Move :=
          match (getCell gs.boardState row 0).piece with
          | some leftRook =>
            if !leftRook.hasMoved then
              if (getCell gs.boardState row 1).piece = none &&
                  (getCell gs.boardState row 2).piece = none &&
                  (getCell gs.boardState row 3).piece = none then
                [annotateMove gs
                  { fromPos := position, toPos := (row, 2), castling := true }]
              else []
            else []
          | none => []
        let rightCastle : List Move :=
          match (getCell gs.boardState row 7).piece with
          | some rightRook =>
            if !rightRook.hasMoved then
              if (getCell gs.boardState row 5).piece = none &&
                  (getCell gs.boardState row 6).piece = none then
                [annotateMove gs
                  { fromPos := position, toPos := (row, 6), castling := true }]
              else []
            else []
          | none => []
        normalMoves ++ leftCastle ++ rightCastle

/-- getMovesFromPosition: dispatches on the type of the piece at the
position; empty cells yield no moves. -/
def getMovesFromPosition (gs : GameState) (position : Nat × Nat) : List Move :=
  match (getCell gs.boardState position.1 position.2).piece with
  | none => []
  | some piece =>
    match piece.type with
    | .pawn => getPawnMoves gs position
    | .rook => getRookMoves gs position
    | .knight => getKnightMoves gs position
    | .bishop => getBishopMoves gs position
    | .queen => getQueenMoves gs position
    | .king => getKingMoves gs position

/-- addMoveToHistory. -/
def addMoveToHistory (gs : GameState) (move : Move) : GameState :=
  { gs with moveHistory := gs.moveHistory ++ [move] }

/-- flipTurn. -/
def flipTurn (gs : GameState) : GameState :=
  { gs with turn := if gs.turn = PlayerColor.white
      then PlayerColor.black else PlayerColor.white }

/-- movePieceAccordingToMove: sets hasMoved on the moving piece, sets
justMoved2 exactly when the move carries isPawnMoving2, replaces the piece
on promotion (the promoted piece has no justMoved2 field, that is, false),
writes the piece into the target cell and empties the source cell.  Throws
when the source cell is empty. -/
def movePieceAccordingToMove (gs : GameState) (move : Move) :
    Except String GameState :=
  match (getCell gs.boardState move.fromPos.1 move.fromPos.2).piece with
  | none => .error "No piece to move"
  | some piece =>
    let moved : Piece :=
      { piece with hasMoved := true, justMoved2 := move.isPawnMoving2 }
    let pieceToPutInToCell : Piece :=
      match move.promotion with
      | some promo =>
        { type := promo, color := gs.turn, hasMoved := true, justMoved2 := false }
      | none => moved
    let board1 := setCellPiece gs.boardState move.toPos.1 move.toPos.2
      (some pieceToPutInToCell)
    let board2 := setCellPiece board1 move.fromPos.1 move.fromPos.2 none
    .ok { gs with boardState := board2 }

/-- executeEnPassant: removes the captured pawn sitting behind the target
square (direction depends on the side to move), then records and performs
the pawn move and flips the turn. -/
def executeEnPassant (gs : GameState) (move : Move) :
    Except String GameState :=
  let directionOfCapturedPawn : Int := if gs.turn = PlayerColor.white then -1 else 1
  let capturedPawnRow : Int := (move.toPos.1 : Int) + directionOfCapturedPawn
  let capturedPawnCol := move.toPos.2
  if capturedPawnRow < 0 then .error "No piece to capture"
  else
    match (getCell gs.boardState capturedPawnRow.toNat capturedPawnCol).piece with
    | none => .error "No piece to capture"
    | some _ =>
      let gs1 := { gs with
        boardState := setCellPiece gs.boardState capturedPawnRow.toNat capturedPawnCol none }
      let gs2 := addMoveToHistory gs1 move
      (movePieceAccordingToMove gs2 move).map flipTurn

/-- executeCastling: moves the rook between the corner and the inner square
(note the source copies the rook piece unchanged, so the rook keeps
hasMoved = false), then records and performs the king move and flips the
turn. -/
def executeCastling (gs : GameState) (move : Move) :
    Except String GameState :=
  let row := move.fromPos.1
  let rookStartCol := if move.toPos.2 = 6 then 7 else 0
  let rookEndCol := if move.toPos.2 = 6 then 5 else 3
  let rookPiece := (getCell gs.boardState row rookStartCol).piece
  let gs1 := addMoveToHistory gs move
  let board1 := setCellPiece gs1.boardState row rookEndCol rookPiece
  let board2 := setCellPiece board1 row rookStartCol none
  let gs2 := { gs1 with boardState := board2 }
  (movePieceAccordingToMove gs2 move).map flipTurn

/-- makeMove.  The ChessGame constructor stores the caller-supplied state
object by reference (no clone), and makeMove mutates this.gameState in
place, so the value returned here is also what the caller-held state object
contains after the call.  Throws on an empty source cell or when the piece
does not belong to the side to move. -/
def makeMove (gs : GameState) (move : Move) : Except String GameState :=
  match (getCell gs.boardState move.fromPos.1 move.fromPos.2).piece with
  | none => .error "Failed to make move: No piece to move"
  | some piece =>
    if piece.color ≠ gs.turn then .error "Failed to make move: Not your turn"
    else if move.enPassant then executeEnPassant gs move
    else if move.castling then executeCastling gs move
    else
      (movePieceAccordingToMove (addMoveToHistory gs move) move).map flipTurn

/-- getKingPosition: first king of the color in row-major order.  The source
throws when no king exists; modelled by none. -/
def getKingPosition (gs : GameState) (color : PlayerColor) :
    Option (Nat × Nat) :=
  (List.range 8).foldl
    (fun acc row =>
      match acc with
      | some p => some p
      | none =>
        (List.range 8).foldl
          (fun acc2 col =>
            match acc2 with
            | some p => some p
            | none =>
              match (getCell gs.boardState row col).piece with
              | some piece =>
                if piece.type = PieceType.king && piece.color = color then
                  some (row, col)
                else none
              | none => none) none) none

/-- isCheck: pretends the king moves as a rook, bishop and knight and looks
at what those rays hit; pawns are recognized on the diagonal rays one row
ahead of the king (direction depending on the defending color).  The source
throws when the king is missing; modelled by false, unreachable in any
position holding both kings. -/
def isCheck (gs : GameState) (color : PlayerColor) : Bool :=
  match getKingPosition gs color with
  | none => false
  | some kingPosition =>
    let linearHit :=
      (getRookMoves gs kingPosition).any (fun move =>
        match (getCell gs.boardState move.toPos.1 move.toPos.2).piece with
        | none => false
        | some piece =>
          piece.color ≠ color &&
            (piece.type = PieceType.rook || piece.type = PieceType.queen))
    let diagonalHit :=
      (getBishopMoves gs kingPosition).any (fun move =>
        match (getCell gs.boardState move.toPos.1 move.toPos.2).piece with
        | none => false
        | some piece =>
          piece.color ≠ color &&
            (piece.type = PieceType.bishop || piece.type = PieceType.queen ||
              (piece.type = PieceType.pawn &&
                (if color = PlayerColor.white then
                  move.toPos.1 = kingPosition.1 + 1
                else
                  (move.toPos.1 : Int) = (kingPosition.1 : Int) - 1)))
      )
    let knightHit :=
      (getKnightMoves gs kingPosition).any (fun move =>
        match (getCell gs.boardState move.toPos.1 move.toPos.2).piece with
        | none => false
        | some piece => piece.color ≠ color && piece.type = PieceType.knight)
    linearHit || diagonalHit || knightHit

/-- doesMovePutMovingPlayerInCheck: applies the move to a deep clone and
tests isCheck for the side that moved.  The unreachable throw inside
makeMove is modelled as true (the move would be discarded). -/
def doesMovePutMovingPlayerInCheck (gs : GameState) (move : Move) : Bool :=
  match makeMove gs move with
  | .ok hypothetical => isCheck hypothetical gs.turn
  | .error _ => true

/-- getAllLegalMoves: every piece move of the color that does not leave the
own king in check, scanning cells in row-major order. -/
def getAllLegalMoves (gs : GameState) (color : PlayerColor) : List Move :=
  (List.range 8).foldl
    (fun acc row =>
      (List.range 8).foldl
        (fun acc2 col =>
          match (getCell gs.boardState row col).piece with
          | some piece =>
            if piece.color = color then
              acc2 ++ (getMovesFromPosition gs (row, col)).filter
                (fun move => !doesMovePutMovingPlayerInCheck gs move)
            else acc2
          | none => acc2) acc) []

def isTerminal (gs : GameState) : Bool :=
  getAllLegalMoves gs gs.turn = []

def isCheckmate (gs : GameState) (color : PlayerColor) : Bool :=
  if !isCheck gs color then false
  else getAllLegalMoves gs color = []

def getEndgameState (gs : GameState) : EndgameState :=
  if !isTerminal gs then .inProgress
  else if isCheckmate gs PlayerColor.white then .checkmateWhite
  else if isCheckmate gs PlayerColor.black then .checkmateBlack
  else .draw

/-- jsBoolString: how a boolean renders inside a template literal. -/
def jsBoolString (b : Bool) : String :=
  if b then "true" else "false"

/-- jsColorString: how a PlayerColor renders inside a template literal. -/
def jsColorString : PlayerColor → String
  | .white => "white"
  | .black => "black"

/-- jsPieceTypeString: how a PieceType renders inside a template literal. -/
def jsPieceTypeString : PieceType → String
  | .pawn => "pawn"
  | .rook => "rook"
  | .knight => "knight"
  | .bishop => "bishop"
  | .queen => "queen"
  | .king => "king"

/-- hashCellState, exactly as the source behaves: the empty branch returns
the string "empty", but the non-empty branch builds the tag
color_type_hasMoved with an optional _justMoved2 suffix into a local and
then falls off the end of the function without returning it, so the
JavaScript function yields undefined, which string concatenation renders as
"undefined".  The built-and-dropped tag shows the intended return value. -/
def hashCellState (cellState : CellState) : String :=
  match cellState.piece with
  | none => "empty"
  | some piece =>
    let _out :=
      let base := jsColorString piece.color ++ "_" ++
        jsPieceTypeString piece.type ++ "_" ++ jsBoolString piece.hasMoved
      if piece.type = PieceType.pawn then
        base ++ "_" ++ jsBoolString piece.justMoved2
      else base
    "undefined"

/-- hashGameState: side to move, then every cell tag separated by commas,
with the trailing comma removed. -/
def hashGameState (gs : GameState) : String :=
  let withCells :=
    gs.boardState.foldl
      (fun acc row =>
        row.foldl (fun acc2 cell => acc2 ++ hashCellState cell ++ ",") acc)
      (jsColorString gs.turn ++ ",")
  withCells.dropRight 1

/-! # Compressed minimax core (CompressedMinimax.ts)

The class is modelled as pure functions over an explicit SearchState.  The
cooperative async execution is sequentialized; promises appear as their
settled outcomes.  The private field parallel is initialized to true and is
never assigned anywhere in the repository, but the serial branch is
embedded as well, switched by the configuration.  Oracle invocations are
counted in the state so claims about "no oracle calls" are expressible, and
the two logMinimaxIter events of the source are recorded in the state
(most recent first). -/

/-- budgetCacheTolerance, a private constant of CompressedMinimax. -/
def budgetCacheTolerance : ℚ := 1/10

/-- Return value of CompressedMinimax.estimateNumberOfSuccessors, the
abstract default. -/
def defaultEstimateNumberOfSuccessors : Nat := 10

/-- targetSuccessorCount of LLMMinimaxAgent, which overrides
estimateNumberOfSuccessors to return it. -/
def llmTargetSuccessorCount : Nat := 8

/-- A JavaScript number as produced by this search: a rational or one of
the two infinities used by Math.max, Math.min and the alpha-beta window. -/
inductive XQ where
  | negInf
  | fin (q : ℚ)
  | posInf
deriving DecidableEq

/-- Strict less-than of JavaScript numbers (no NaN arises here). -/
def XQ.blt : XQ → XQ → Bool
  | .negInf, .negInf => false
  | .negInf, _ => true
  | .fin _, .negInf => false
  | .fin a, .fin b => a < b
  | .fin _, .posInf => true
  | .posInf, _ => false

/-- Non-strict comparison of JavaScript numbers. -/
def XQ.ble (a b : XQ) : Bool := !(XQ.blt b a)

/-- Math.max on two numbers. -/
def XQ.max (a b : XQ) : XQ := if XQ.blt a b then b else a

/-- Math.min on two numbers. -/
def XQ.min (a b : XQ) : XQ := if XQ.blt b a then b else a

inductive SearchError where
  | noSuccessors
  | oracleFail (msg : String)
  | hung
  | outOfFuel
deriving DecidableEq

instance {ε α : Type} [DecidableEq ε] [DecidableEq α] :
    DecidableEq (Except ε α) := fun a b =>
  match a, b with
  | .ok x, .ok y =>
    if h : x = y then .isTrue (by rw [h]) else .isFalse (by simp [h])
  | .error x, .error y =>
    if h : x = y then .isTrue (by rw [h]) else .isFalse (by simp [h])
  | .ok _, .error _ => .isFalse (by simp)
  | .error _, .ok _ => .isFalse (by simp)

/-- MinimaxIterationResult from CompressedMinimax.ts. -/
structure MinimaxIterationResult where
  computedValue : XQ
  usedBudget : ℚ
deriving DecidableEq

/-- PendingCacheEntry: the value slot is a shared future; it is modelled by
its settled outcome. -/
structure PendingCacheEntry where
  computedValue : Except SearchError XQ
  budget : ℚ
deriving DecidableEq

/-- GameStateProgression from CompressedMinimax.ts. -/
structure GameStateProgression where
  nextState : GameState
  move : Move
  probability : ℚ
deriving DecidableEq

/-- The two event shapes written through logMinimaxIter. -/
inductive LogEvent where
  | stateEvaluation (value : XQ) (depth : Nat)
  | minimaxIter (depth : Nat) (value : XQ) (usedBudget : ℚ)
deriving DecidableEq

def LogEvent.depth : LogEvent → Nat
  | .stateEvaluation _ d => d
  | .minimaxIter d _ _ => d

def LogEvent.isStateEvaluation : LogEvent → Bool
  | .stateEvaluation _ _ => true
  | .minimaxIter _ _ _ => false

/-- The mutable per-agent state: the two caches of CompressedMinimax,
counters of oracle invocations, and the minimax log (most recent first). -/
structure SearchState where
  minimaxCache : List (String × PendingCacheEntry)
  successorsCache : List (String × Except SearchError (List GameStateProgression))
  evalCalls : Nat
  succCalls : Nat
  log : List LogEvent
deriving DecidableEq

def initialSearchState : SearchState :=
  { minimaxCache := [], successorsCache := [], evalCalls := 0,
    succCalls := 0, log := [] }

/-- The two abstract methods of CompressedMinimax, implemented by the
agent; modelled as a deterministic oracle. -/
structure SearchOracle where
  stateEvaluation : GameState → Except SearchError ℚ
  getSuccessors : GameState → Except SearchError (List GameStateProgression)

/-- CostSetup plus the two pieces of agent state the search consults: the
estimateNumberOfSuccessors override and the parallel flag (true in the
source, never reassigned). -/
structure MinimaxSetup where
  maxDepth : Nat
  totalBudget : ℚ
  stateEvaluationCost : ℚ
  getSuccessorsCost : ℚ
  basicMinimaxCost : ℚ
  estimateNumberOfSuccessors : Nat := defaultEstimateNumberOfSuccessors
  parallel : Bool := true
deriving DecidableEq

/-- Lookup in a JavaScript Map modelled as an association list. -/
def alGet {α : Type} : List (String × α) → String → Option α
  | [], _ => none
  | (k, v) :: rest, key => if k = key then some v else alGet rest key

/-- Map.set: replaces the existing binding or appends a new one. -/
def alSet {α : Type} : List (String × α) → String → α → List (String × α)
  | [], key, value => [(key, value)]
  | (k, v) :: rest, key, value =>
    if k = key then (key, value) :: rest else (k, v) :: alSet rest key value

/-- addToMinimaxCache: keeps an existing entry computed under a strictly
larger budget, otherwise overwrites. -/
def addToMinimaxCache (cache : List (String × PendingCacheEntry))
    (gameHash : String) (entry : PendingCacheEntry) :
    List (String × PendingCacheEntry) :=
  match alGet cache gameHash with
  | some existingEntry =>
    if existingEntry.budget > entry.budget then cache
    else alSet cache gameHash entry
  | none => alSet cache gameHash entry

/-- Shape of a recursive minimax invocation as seen by the tree searches:
next state, budget, alpha, beta, maximizing, state in; result and state
out.  The depth argument is already fixed to depth + 1 by the caller. -/
abbrev MinimaxRec :=
  GameState → ℚ → XQ → XQ → Bool → SearchState →
    Except SearchError MinimaxIterationResult × SearchState

/-- Promise.all aggregation of one child outcome with the outcomes of the
remaining children: the first rejection in order wins, otherwise the result
joins the list. -/
def combineChildOutcome :
    Except SearchError MinimaxIterationResult →
      Except SearchError (List MinimaxIterationResult) →
      Except SearchError (List MinimaxIterationResult)
  | .error e, _ => .error e
  | .ok _, .error e => .error e
  | .ok a, .ok l => .ok (a :: l)

/-- The child launches of minimaxParallelTreeSearch.  All children run
(they are all launched before Promise.all awaits), their effects on the
state all happen, and the first rejection in order becomes the outcome. -/
def runChildrenPar (recCall : MinimaxRec) (budgetForSearch : ℚ)
    (childMaximizing : Bool) :
    List GameStateProgression → SearchState →
      Except SearchError (List MinimaxIterationResult) × SearchState
  | [], st => (.ok [], st)
  | successor :: rest, st =>
    let r := recCall successor.nextState (budgetForSearch * successor.probability)
      XQ.negInf XQ.posInf childMaximizing st
    let rs := runChildrenPar recCall budgetForSearch childMaximizing rest r.2
    (combineChildOutcome r.1 rs.1, rs.2)

/-- minimaxParallelTreeSearch: no pruning; aggregates with Math.max or
Math.min spread over the child values (identity element = the infinity of
the corresponding sign, exactly the JavaScript value on an empty list). -/
def minimaxParallelTreeSearch (recCall : MinimaxRec) (budgetForSearch : ℚ)
    (successors : List GameStateProgression) (maximizingPlayer : Bool)
    (st : SearchState) :
    Except SearchError MinimaxIterationResult × SearchState :=
  let children := runChildrenPar recCall budgetForSearch (!maximizingPlayer)
    successors st
  (match children.1 with
   | .error e => .error e
   | .ok subnodeResults =>
     let usedBudget := subnodeResults.foldl (fun acc val => acc + val.usedBudget) 0
     let bestValue :=
       if maximizingPlayer then
         (subnodeResults.map (·.computedValue)).foldl XQ.max XQ.negInf
       else
         (subnodeResults.map (·.computedValue)).foldl XQ.min XQ.posInf
     .ok ⟨bestValue, usedBudget⟩,
   children.2)

/-- The maximizing loop of minimaxSerialTreeSearch, with live alpha and the
break when beta is not above alpha.  A child rejection propagates out of
the awaiting loop immediately. -/
def minimaxSerialMax (recCall : MinimaxRec) (budgetForSearch : ℚ) :
    List GameStateProgression → XQ → XQ → XQ → ℚ → SearchState →
      Except SearchError MinimaxIterationResult × SearchState
  | [], bestValue, _, _, usedBudget, st => (.ok ⟨bestValue, usedBudget⟩, st)
  | successor :: rest, bestValue, alpha, beta, usedBudget, st =>
    match recCall successor.nextState (budgetForSearch * successor.probability)
        alpha beta false st with
    | (.error e, st1) => (.error e, st1)
    | (.ok r, st1) =>
      let value := r.computedValue
      let usedBudget1 := usedBudget + r.usedBudget
      let bestValue1 := XQ.max bestValue value
      let alpha1 := XQ.max alpha value
      if XQ.ble beta alpha1 then (.ok ⟨bestValue1, usedBudget1⟩, st1)
      else minimaxSerialMax recCall budgetForSearch rest bestValue1 alpha1 beta usedBudget1 st1

/-- The minimizing loop of minimaxSerialTreeSearch. -/
def minimaxSerialMin (recCall : MinimaxRec) (budgetForSearch : ℚ) :
    List GameStateProgression → XQ → XQ → XQ → ℚ → SearchState →
      Except SearchError MinimaxIterationResult × SearchState
  | [], bestValue, _, _, usedBudget, st => (.ok ⟨bestValue, usedBudget⟩, st)
  | successor :: rest, bestValue, alpha, beta, usedBudget, st =>
    match recCall successor.nextState (budgetForSearch * successor.probability)
        alpha beta true st with
    | (.error e, st1) => (.error e, st1)
    | (.ok r, st1) =>
      let value := r.computedValue
      let usedBudget1 := usedBudget + r.usedBudget
      let bestValue1 := XQ.min bestValue value
      let beta1 := XQ.min beta value
      if XQ.ble beta1 alpha then (.ok ⟨bestValue1, usedBudget1⟩, st1)
      else minimaxSerialMin recCall budgetForSearch rest bestValue1 alpha beta1 usedBudget1 st1

/-- minimaxSerialTreeSearch dispatch. -/
def minimaxSerialTreeSearch (recCall : MinimaxRec) (budgetForSearch : ℚ)
    (successors : List GameStateProgression) (alpha beta : XQ)
    (maximizingPlayer : Bool) (st : SearchState) :
    Except SearchError MinimaxIterationResult × SearchState :=
  if maximizingPlayer then
    minimaxSerialMax recCall budgetForSearch successors XQ.negInf alpha beta 0 st
  else
    minimaxSerialMin recCall budgetForSearch successors XQ.posInf alpha beta 0 st

/-- realizedGetSuccessorsCost: zero when the successors of this state are
cached, the configured cost otherwise. -/
def realizedGetSuccessorsCost (cfg : MinimaxSetup)
    (cachedSuccessors : Option (List GameStateProgression)) : ℚ :=
  match cachedSuccessors with
  | some _ => 0
  | none => cfg.getSuccessorsCost

/-- estimatedNumberOfSuccessors: the length of the cached successor list,
or the configured estimate when not cached. -/
def estimatedNumberOfSuccessors (cfg : MinimaxSetup)
    (cachedSuccessors : Option (List GameStateProgression)) : Nat :=
  match cachedSuccessors with
  | some l => l.length
  | none => cfg.estimateNumberOfSuccessors

/-- The leaf decision of the minimax body, in source order: become a leaf
when depth has reached maxDepth, or when the budget cannot cover the
realized successor-fetch cost plus one evaluation per estimated successor
on top of the budget already used (basicMinimaxCost at this point). -/
def minimaxIsLeafCond (cfg : MinimaxSetup) (depth : Nat) (budget : ℚ)
    (cachedSuccessors : Option (List GameStateProgression)) : Prop :=
  cfg.maxDepth ≤ depth ∨
    budget < realizedGetSuccessorsCost cfg cachedSuccessors +
      (estimatedNumberOfSuccessors cfg cachedSuccessors : ℚ) *
        cfg.stateEvaluationCost + cfg.basicMinimaxCost

instance (cfg : MinimaxSetup) (depth : Nat) (budget : ℚ)
    (cachedSuccessors : Option (List GameStateProgression)) :
    Decidable (minimaxIsLeafCond cfg depth budget cachedSuccessors) := by
  unfold minimaxIsLeafCond
  infer_instance

/-- The tail of the minimax body shared by the cached and uncached
successor paths: the empty-successors rejection, the budget split, the
chosen tree search, and the minimaxIter log record. -/
def minimaxTreeSearchPart (cfg : MinimaxSetup) (recCall : MinimaxRec)
    (depth : Nat) (budget usedBudget1 : ℚ) (alpha beta : XQ)
    (maximizingPlayer : Bool) (successors : List GameStateProgression)
    (st : SearchState) :
    Except SearchError MinimaxIterationResult × SearchState :=
  if successors.isEmpty then (.error .noSuccessors, st)
  else
    let remainingBudgetBeforeTreeSearch := budget - usedBudget1
    let searchResult :=
      if cfg.parallel then
        minimaxParallelTreeSearch recCall remainingBudgetBeforeTreeSearch
          successors maximizingPlayer st
      else
        minimaxSerialTreeSearch recCall remainingBudgetBeforeTreeSearch
          successors alpha beta maximizingPlayer st
    match searchResult with
    | (.error e, st2) => (.error e, st2)
    | (.ok r, st2) =>
      let usedBudgetFinal := usedBudget1 + r.usedBudget
      (.ok ⟨r.computedValue, usedBudgetFinal⟩,
       { st2 with log := LogEvent.minimaxIter depth r.computedValue usedBudgetFinal :: st2.log })

/-- The leaf-or-expand decision of the minimax body, after the successors
cache has been consulted.  A leaf charges stateEvaluationCost and returns
the evaluation oracle answer; an evaluation rejection is thrown inside the
promise executor without a reject route, so the promise hangs. -/
def minimaxLeafOrExpand (o : SearchOracle) (cfg : MinimaxSetup)
    (recCall : MinimaxRec) (depth : Nat) (gameState : GameState)
    (budget : ℚ) (alpha beta : XQ) (maximizingPlayer : Bool)
    (st : SearchState) (cachedSuccessors : Option (List GameStateProgression)) :
    Except SearchError MinimaxIterationResult × SearchState :=
  let gameHash := hashGameState gameState
  let usedBudget0 := cfg.basicMinimaxCost
  let realized := realizedGetSuccessorsCost cfg cachedSuccessors
  if minimaxIsLeafCond cfg depth budget cachedSuccessors then
    let usedBudget1 := usedBudget0 + cfg.stateEvaluationCost
    match o.stateEvaluation gameState with
    | .error _ => (.error .hung, { st with evalCalls := st.evalCalls + 1 })
    | .ok value =>
      (.ok ⟨XQ.fin value, usedBudget1⟩,
       { st with evalCalls := st.evalCalls + 1,
                 log := LogEvent.stateEvaluation (XQ.fin value) depth :: st.log })
  else
    let usedBudget1 := usedBudget0 + realized
    match cachedSuccessors with
    | none =>
      let succResult := o.getSuccessors gameState
      let st1 := { st with succCalls := st.succCalls + 1,
                           successorsCache := alSet st.successorsCache gameHash succResult }
      match succResult with
      | .error e => (.error e, st1)
      | .ok successors =>
        minimaxTreeSearchPart cfg recCall depth budget usedBudget1 alpha beta
          maximizingPlayer successors st1
    | some successors =>
      minimaxTreeSearchPart cfg recCall depth budget usedBudget1 alpha beta
        maximizingPlayer successors st

/-- The minimax body after the cache probe and the terminal probe: consult
the successors cache (awaiting a rejected cached successors promise throws
inside the executor without a reject route, hanging the node), then decide
leaf or expansion. -/
def minimaxCore (o : SearchOracle) (cfg : MinimaxSetup) (recCall : MinimaxRec)
    (depth : Nat) (gameState : GameState) (budget : ℚ) (alpha beta : XQ)
    (maximizingPlayer : Bool) (st : SearchState) :
    Except SearchError MinimaxIterationResult × SearchState :=
  match alGet st.successorsCache (hashGameState gameState) with
  | some (.error _) => (.error .hung, st)
  | some (.ok l) =>
    minimaxLeafOrExpand o cfg recCall depth gameState budget alpha beta
      maximizingPlayer st (some l)
  | none =>
    minimaxLeafOrExpand o cfg recCall depth gameState budget alpha beta
      maximizingPlayer st none

/-- The cache probe that opens CompressedMinimax.minimax: when an entry
exists under a compatible budget (at least the requested budget, or within
budgetCacheTolerance of it), the probe serves the entry through its shared
future with usedBudget 0. -/
def minimaxCacheProbe (cache : List (String × PendingCacheEntry))
    (gameHash : String) (budget : ℚ) :
    Option (Except SearchError MinimaxIterationResult) :=
  match alGet cache gameHash with
  | some cacheResult =>
    if cacheResult.budget ≥ budget ∨
        |cacheResult.budget - budget| < budgetCacheTolerance then
      some (cacheResult.computedValue.map
        (fun v => { computedValue := v, usedBudget := 0 }))
    else none
  | none => none

/-- CompressedMinimax.minimax.  Structure, in source order: cache probe
(compatible budget: serve the shared future with usedBudget 0); terminal
probe (checkmate values are published at the used budget and returned);
otherwise the body runs and its outcome is published under the requested
budget through addToMinimaxCache.  Recursion in the source is bounded by
maxDepth (children recurse only when depth < maxDepth, at depth + 1); the
explicit fuel makes that bound structural and is never exhausted when
fuel > maxDepth - depth. -/
def minimax (o : SearchOracle) (cfg : MinimaxSetup) :
    Nat → Nat → GameState → ℚ → XQ → XQ → Bool → SearchState →
      Except SearchError MinimaxIterationResult × SearchState
  | 0, _, _, _, _, _, _, st => (.error .outOfFuel, st)
  | fuel + 1, depth, gameState, budget, alpha, beta, maximizingPlayer, st =>
    let gameHash := hashGameState gameState
    match minimaxCacheProbe st.minimaxCache gameHash budget with
    | some probeOutcome => (probeOutcome, st)
    | none =>
      let usedBudget0 := cfg.basicMinimaxCost
      match getEndgameState gameState with
      | .checkmateWhite =>
        (.ok ⟨XQ.fin (-1), usedBudget0⟩,
         { st with minimaxCache := (addToMinimaxCache st.minimaxCache gameHash
             ⟨.ok (XQ.fin (-1)), usedBudget0⟩) })
      | .checkmateBlack =>
        (.ok ⟨XQ.fin 1, usedBudget0⟩,
         { st with minimaxCache := (addToMinimaxCache st.minimaxCache gameHash
             ⟨.ok (XQ.fin 1), usedBudget0⟩) })
      | _ =>
        let recCall : MinimaxRec := fun nextState childBudget a b m st0 =>
          minimax o cfg fuel (depth + 1) nextState childBudget a b m st0
        let bodyResult := minimaxCore o cfg recCall depth gameState budget
          alpha beta maximizingPlayer st
        (bodyResult.1,
         { bodyResult.2 with
             minimaxCache := (addToMinimaxCache bodyResult.2.minimaxCache gameHash
               ⟨bodyResult.1.map (·.computedValue), budget⟩) })

/-- One step of the arg-max reduce at the root:
prev.computedValue > current.computedValue ? prev : current.  On a tie the
comparison is false, so current (the later child) survives. -/
def selectMoveReduceMax (prev current : MinimaxIterationResult × Move) :
    MinimaxIterationResult × Move :=
  if XQ.blt current.1.computedValue prev.1.computedValue then prev else current

/-- One step of the arg-min reduce at the root:
prev.computedValue < current.computedValue ? prev : current.  On a tie the
comparison is false, so current (the later child) survives. -/
def selectMoveReduceMin (prev current : MinimaxIterationResult × Move) :
    MinimaxIterationResult × Move :=
  if XQ.blt prev.1.computedValue current.1.computedValue then prev else current

/-- The root child launches of selectMove: one minimax call per successor at
depth 1 with a full alpha-beta window and the flipped maximizer, pairing
each result with the move of the successor; always parallel. -/
def combineRootOutcome (move : Move) :
    Except SearchError MinimaxIterationResult →
      Except SearchError (List (MinimaxIterationResult × Move)) →
      Except SearchError (List (MinimaxIterationResult × Move))
  | .error e, _ => .error e
  | .ok _, .error e => .error e
  | .ok a, .ok l => .ok ((a, move) :: l)

def runRootChildren (recCall : MinimaxRec) (budget : ℚ)
    (maximizingPlayer : Bool) :
    List GameStateProgression → SearchState →
      Except SearchError (List (MinimaxIterationResult × Move)) × SearchState
  | [], st => (.ok [], st)
  | successor :: rest, st =>
    let r := recCall successor.nextState (budget * successor.probability)
      XQ.negInf XQ.posInf (!maximizingPlayer) st
    let rs := runRootChildren recCall budget maximizingPlayer rest r.2
    (combineRootOutcome successor.move r.1 rs.1, rs.2)

/-- The tail of selectMove once the root successors promise has settled:
reject on failure or emptiness, explore every successor with a share of the
budget, then reduce to the arg-max (white to move) or arg-min (black to
move) and return the associated move.  The source reduce is JavaScript
Array.reduce without an initial value: the first child seeds the fold. -/
def selectMoveAfterSuccessors (o : SearchOracle) (cfg : MinimaxSetup)
    (maximizingPlayer : Bool) (budget : ℚ)
    (succResult : Except SearchError (List GameStateProgression))
    (st : SearchState) : Except SearchError Move × SearchState :=
  match succResult with
  | .error e => (.error e, st)
  | .ok successors =>
    if successors.isEmpty then (.error .noSuccessors, st)
    else
      let recCall : MinimaxRec := fun nextState childBudget a b m st0 =>
        minimax o cfg (cfg.maxDepth + 1) 1 nextState childBudget a b m st0
      match runRootChildren recCall budget maximizingPlayer successors st with
      | (.error e, st1) => (.error e, st1)
      | (.ok results, st1) =>
        match results with
        | [] => (.error .noSuccessors, st1)
        | r :: rs =>
          let best :=
            if maximizingPlayer then rs.foldl selectMoveReduceMax r
            else rs.foldl selectMoveReduceMin r
          (.ok best.2, st1)

/-- CompressedMinimax.selectMove: fetch the root successors through the
single-flight successors cache, paying getSuccessorsCost on a miss, then
explore and reduce. -/
def selectMove (o : SearchOracle) (cfg : MinimaxSetup) (gameState : GameState)
    (st : SearchState) : Except SearchError Move × SearchState :=
  let maximizingPlayer : Bool := gameState.turn = PlayerColor.white
  let gameHash := hashGameState gameState
  match alGet st.successorsCache gameHash with
  | some succResult =>
    selectMoveAfterSuccessors o cfg maximizingPlayer cfg.totalBudget succResult st
  | none =>
    let succResult := o.getSuccessors gameState
    let st1 := { st with succCalls := st.succCalls + 1,
                         successorsCache := alSet st.successorsCache gameHash succResult }
    selectMoveAfterSuccessors o cfg maximizingPlayer
      (cfg.totalBudget - cfg.getSuccessorsCost) succResult st1

/-! # LLM minimax agent (LlmMinimax.ts)

The oracle tasks are modelled around a deterministic call log: an LLM
transport is a function from the global call index to the outcome of that
call, so retries can be counted exactly.  Prompt rendering (the ASCII board
and the task texts) carries no claim and is not embedded; only the control
flow around the calls is.  The two LLM models and the token id table are
transport concerns outside these claims. -/

/-- An assistant message: role and nullable content. -/
structure Message where
  role : String
  content : Option String
deriving DecidableEq

structure TokenLogprob where
  token : String
  logprob : ℚ
deriving DecidableEq

structure LogprobContentEntry where
  token : String
  logprob : ℚ
  top_logprobs : Option (List TokenLogprob)
deriving DecidableEq

structure Logprobs where
  content : List LogprobContentEntry
deriving DecidableEq

structure MessageChoice where
  message : Message
  logprobs : Option Logprobs
deriving DecidableEq

/-- maxLLMTries of LLMMinimaxAgent. -/
def maxLLMTries : Nat := 5

/-- An LLM transport: outcome of the nth call overall.  A throw of the
underlying call is an error. -/
abbrev CallLLM := Nat → Except String (List MessageChoice)

/-- A transport on which every call throws. -/
def alwaysFailLLM : CallLLM := fun _ => .error "LLM call failed"

/-- normalizeLogprobs: exponentiates each logprob, sums, and builds the
token-to-probability object (later duplicate tokens overwrite earlier
ones, as JavaScript object assignment does).  The exponential is a
parameter because the claims about this path do not depend on its values. -/
def normalizeLogprobs (expFn : ℚ → ℚ) (logprobs : List TokenLogprob) :
    List (String × ℚ) :=
  let unNormalizedProbs := logprobs.map (fun t => (t.token, expFn t.logprob))
  let unNormalizedProbsSum := unNormalizedProbs.foldl (fun acc p => acc + p.2) 0
  unNormalizedProbs.foldl
    (fun acc p => alSet acc p.1 (p.2 / unNormalizedProbsSum)) []

/-- The post-call processing of LLMMinimaxAgent.stateEvaluation on the
first message choice.  Without logprobs: -1 when the content is the literal
"black", +1 for anything else (the source else-branch does not test for
"white").  With logprobs: the top logprobs of the first content entry are
normalized and the "white" probability is returned; missing pieces throw. -/
def stateEvaluationFromChoice (expFn : ℚ → ℚ) (messageChoice : MessageChoice) :
    Except String ℚ :=
  match messageChoice.logprobs with
  | none =>
    if messageChoice.message.content = some "black" then .ok (-1)
    else .ok 1
  | some lp =>
    match lp.content.head? with
    | none => .error "TypeError: no first logprob entry"
    | some firstEntry =>
      match firstEntry.top_logprobs with
      | none => .error "No top logprobs in message choice"
      | some topLogprobs =>
        let normalizedProbs := normalizeLogprobs expFn topLogprobs
        match alGet normalizedProbs "white", alGet normalizedProbs "black" with
        | some w, some _ => .ok w
        | _, _ => .error "Black or white not in normalized probs"

/-- The retry loop of getGameDescription: while no choices have arrived and
the post-incremented try counter stays below maxLLMTries, call the LLM and
swallow throws.  Returns the first successful choice list (none after the
tries run out) together with the number of calls made.  The first argument
is the remaining number of tries, maxLLMTries at entry. -/
def descAttempts (callLLM : CallLLM) :
    Nat → Nat → Option (List MessageChoice) × Nat
  | 0, _ => (none, 0)
  | remaining + 1, ctr =>
    match callLLM ctr with
    | .ok messageChoices => (some messageChoices, 1)
    | .error _ =>
      let r := descAttempts callLLM remaining (ctr + 1)
      (r.1, r.2 + 1)

/-- The retry loop of stateEvaluation, which is the same post-incremented
while pattern as the description loop. -/
def evalAttempts (callLLM : CallLLM) :
    Nat → Nat → Option (List MessageChoice) × Nat
  | 0, _ => (none, 0)
  | remaining + 1, ctr =>
    match callLLM ctr with
    | .ok messageChoices => (some messageChoices, 1)
    | .error _ =>
      let r := evalAttempts callLLM remaining (ctr + 1)
      (r.1, r.2 + 1)

/-- How a description request can fail: the loop exhausted its tries and
rejected, or the executor threw outside any reject route (an empty choices
array) and the promise never settles. -/
inductive LLMFailure where
  | exhausted
  | hung
deriving DecidableEq

/-- The description-cache state of LLMMinimaxAgent: settled outcomes of the
cached description promises, plus the global LLM call counter. -/
structure DescState where
  gameDescriptionCache : List (String × Except LLMFailure Message)
  llmCalls : Nat
deriving DecidableEq

/-- LLMMinimaxAgent.getGameDescription: on a cache hit the stored promise
is awaited, whatever way it settled; on a miss the retry loop runs, and the
outcome (success, exhaustion rejection, or a hang) is stored under the
state hash before the function resolves.  The cache entry is never
removed. -/
def getGameDescription (callLLM : CallLLM) (gameState : GameState)
    (st : DescState) : Except LLMFailure Message × DescState :=
  let hash := hashGameState gameState
  match alGet st.gameDescriptionCache hash with
  | some cachedOutcome => (cachedOutcome, st)
  | none =>
    let a := descAttempts callLLM maxLLMTries st.llmCalls
    let st1 : DescState := { st with llmCalls := st.llmCalls + a.2 }
    match a.1 with
    | none =>
      (.error .exhausted,
       { st1 with gameDescriptionCache :=
           (alSet st1.gameDescriptionCache hash (.error .exhausted)) })
    | some [] =>
      (.error .hung,
       { st1 with gameDescriptionCache :=
           (alSet st1.gameDescriptionCache hash (.error .hung)) })
    | some (firstChoice :: _) =>
      (.ok firstChoice.message,
       { st1 with gameDescriptionCache :=
           (alSet st1.gameDescriptionCache hash (.ok firstChoice.message)) })

/-- One token of the parsed move list: accept an exact algebraic match,
else strip a leading P or p, else map the letter castling notations to the
digit ones; otherwise drop the token. -/
def salvageMoveToken (validMoveMapping : List (String × Move))
    (moveString : String) : Option Move :=
  match alGet validMoveMapping moveString with
  | some m => some m
  | none =>
    match (if moveString.startsWith "P" || moveString.startsWith "p" then
        alGet validMoveMapping (moveString.drop 1)
      else none) with
    | some m => some m
    | none =>
      if moveString = "O-O" then alGet validMoveMapping "0-0"
      else if moveString = "O-O-O" then alGet validMoveMapping "0-0-0"
      else none

/-- extractMovesFromMessage: the regex takes everything after the first
occurrence of the marker up to the end of that line, splits on commas,
trims, salvages each token, and yields null when nothing survives. -/
def extractMovesFromMessage (validMoveMapping : List (String × Move))
    (llmOutput : String) : Option (List Move) :=
  match llmOutput.splitOn "Moves: " with
  | [] => none
  | [_] => none
  | _ :: afterFirst =>
    let movesString :=
      ((String.intercalate "Moves: " afterFirst).splitOn "\n").headD ""
    let moveStrings := (movesString.splitOn ",").map (fun s => s.trim)
    let moves := moveStrings.filterMap (salvageMoveToken validMoveMapping)
    if moves.isEmpty then none else some moves

/-- How the successor retry loop can leave: with moves, by throwing the
exhaustion error, by throwing on falsy content, by the TypeError on an
empty choices array, or not at all within the given fuel (stillRunning:
the loop is still going). -/
inductive SuccLoopOutcome where
  | ok (moves : List Move)
  | exhausted
  | noContent
  | typeError
  | stillRunning
deriving DecidableEq

/-- The retry loop of getSuccessorsInOneSingleOptionLLMCall, paired with
the number of LLM calls made.  The loop keeps a try counter that is
incremented at the bottom of the loop body; the catch around the LLM call
executes continue, which skips that increment, so a throwing call leaves
the counter unchanged.  Parse failures (null extraction) do pass the
increment.  The fuel argument only truncates observation of the loop;
stillRunning means the loop had not left by then. -/
def succAttempts (callLLM : CallLLM) (validMoveMapping : List (String × Move)) :
    Nat → Nat → Nat → SuccLoopOutcome × Nat
  | 0, _, _ => (.stillRunning, 0)
  | fuel + 1, ctr, tires =>
    if tires ≥ maxLLMTries then (.exhausted, 0)
    else
      match callLLM ctr with
      | .error _ =>
        let r := succAttempts callLLM validMoveMapping fuel (ctr + 1) tires
        (r.1, r.2 + 1)
      | .ok [] => (.typeError, 1)
      | .ok (firstChoice :: _) =>
        match firstChoice.message.content with
        | none => (.noContent, 1)
        | some txt =>
          if txt = "" then (.noContent, 1)
          else
            match extractMovesFromMessage validMoveMapping txt with
            | none =>
              let r := succAttempts callLLM validMoveMapping fuel (ctr + 1) (tires + 1)
              (r.1, r.2 + 1)
            | some moves => (.ok moves, 1)

/-! # Concrete inputs

Boards and states used by the concrete evaluations below.  Boards are built
by placing pieces on an empty 8x8 grid. -/

def emptyBoardRow : List CellState := List.replicate 8 blankCell

def emptyBoard : List (List CellState) := List.replicate 8 emptyBoardRow

def boardWith (pieces : List (Nat × Nat × Piece)) : List (List CellState) :=
  pieces.foldl (fun b p => setCellPiece b p.1 p.2.1 (some p.2.2)) emptyBoard

def whiteKingAt (row col : Nat) : Nat × Nat × Piece :=
  (row, col, { type := .king, color := .white, hasMoved := true })

def blackKingAt (row col : Nat) : Nat × Nat × Piece :=
  (row, col, { type := .king, color := .black, hasMoved := true })

/-- A quiet position: the two kings far apart, white to move. -/
def kingsOnlyState : GameState :=
  { turn := .white
    boardState := boardWith [whiteKingAt 0 0, blackKingAt 7 7]
    moveHistory := [] }

/-- Hash-collision pair, first state: white king a1, black king h8, white
rook d4, white to move. -/
def hashPairRookState : GameState :=
  { turn := .white
    boardState := boardWith [whiteKingAt 0 0, blackKingAt 7 7,
      (3, 3, { type := .rook, color := .white, hasMoved := true })]
    moveHistory := [] }

/-- Hash-collision pair, second state: identical occupancy, but the piece
on d4 is a knight. -/
def hashPairKnightState : GameState :=
  { turn := .white
    boardState := boardWith [whiteKingAt 0 0, blackKingAt 7 7,
      (3, 3, { type := .knight, color := .white, hasMoved := true })]
    moveHistory := [] }

/-- En-passant window scenario: white has just played the e-pawn two
squares (justMoved2 set), a black pawn stands on d4, the h-pawns of both
sides are home, black to move. -/
def epWindowState : GameState :=
  { turn := .black
    boardState := boardWith [whiteKingAt 0 4, blackKingAt 7 4,
      (3, 4, { type := .pawn, color := .white, hasMoved := true, justMoved2 := true }),
      (3, 3, { type := .pawn, color := .black, hasMoved := true }),
      (1, 7, { type := .pawn, color := .white, hasMoved := false }),
      (6, 7, { type := .pawn, color := .black, hasMoved := false })]
    moveHistory := [] }

/-- The en-passant capture d4 to e3 as the engine generates it. -/
def epCaptureMove : Move :=
  { fromPos := (3, 3), toPos := (2, 4), algebraic := "e3", enPassant := true }

/-- A quiet black move after the double push: h7 to h6. -/
def epFillerBlackMove : Move :=
  { fromPos := (6, 7), toPos := (5, 7), algebraic := "h6" }

/-- A quiet white move that is not a pawn double move: h2 to h3. -/
def epFillerWhiteMove : Move :=
  { fromPos := (1, 7), toPos := (2, 7), algebraic := "h3" }

/-- Back-rank style mate against white: white king a1 cornered by black
rooks on a8 and b8, white to move and checkmated. -/
def mateAgainstWhiteState : GameState :=
  { turn := .white
    boardState := boardWith [whiteKingAt 0 0, blackKingAt 7 7,
      (7, 0, { type := .rook, color := .black, hasMoved := true }),
      (7, 1, { type := .rook, color := .black, hasMoved := true })]
    moveHistory := [] }

/-- The mirrored mate against black: black king h8 cornered by white rooks
on h1 and g1, black to move and checkmated. -/
def mateAgainstBlackState : GameState :=
  { turn := .black
    boardState := boardWith [whiteKingAt 0 0, blackKingAt 7 7,
      (0, 7, { type := .rook, color := .white, hasMoved := true }),
      (0, 6, { type := .rook, color := .white, hasMoved := true })]
    moveHistory := [] }

/-- Purity scenario: a lone white pawn on e2 about to step to e3. -/
def purityStartState : GameState :=
  { turn := .white
    boardState := boardWith [whiteKingAt 0 0, blackKingAt 7 7,
      (1, 4, { type := .pawn, color := .white, hasMoved := false })]
    moveHistory := [] }

def purityPawnMove : Move :=
  { fromPos := (1, 4), toPos := (2, 4), algebraic := "e3" }

/-- The value the caller-held state object holds after makeMove on a game
constructed from purityStartState: the pawn has moved, the turn flipped and
the history grew. -/
def purityEndState : GameState :=
  { turn := .black
    boardState := boardWith [whiteKingAt 0 0, blackKingAt 7 7,
      (2, 4, { type := .pawn, color := .white, hasMoved := true })]
    moveHistory := [purityPawnMove] }

/-- Root of the tie-break scenario, white to move. -/
def tieRootState : GameState := kingsOnlyState

/-- First child of the tie-break scenario. -/
def tieChildOneState : GameState :=
  { turn := .black
    boardState := boardWith [whiteKingAt 0 1, blackKingAt 7 7]
    moveHistory := [] }

/-- Second child of the tie-break scenario (different occupancy, so a
different state hash). -/
def tieChildTwoState : GameState :=
  { turn := .black
    boardState := boardWith [whiteKingAt 1 0, blackKingAt 7 7]
    moveHistory := [] }

def tieMoveOne : Move :=
  { fromPos := (0, 0), toPos := (0, 1), algebraic := "Kb1" }

def tieMoveTwo : Move :=
  { fromPos := (0, 0), toPos := (1, 0), algebraic := "Ka2" }

/-- Stub oracle for the tie-break scenario: two root successors with equal
probability, and every evaluation answers one half. -/
def tieOracle : SearchOracle :=
  { stateEvaluation := fun _ => .ok (1/2)
    getSuccessors := fun s =>
      if s = tieRootState then
        .ok [{ nextState := tieChildOneState, move := tieMoveOne, probability := 1/2 },
             { nextState := tieChildTwoState, move := tieMoveTwo, probability := 1/2 }]
      else .error (.oracleFail "unexpected successor request") }

/-- The CostSetup bound by callGenericAgent for both LLM agents. -/
def defaultCostSetup : MinimaxSetup :=
  { maxDepth := 1, totalBudget := 500, stateEvaluationCost := 10,
    getSuccessorsCost := 10, basicMinimaxCost := 1 }

/-- An oracle that is never consulted; used where a claim is about cache
behaviour only. -/
def unusedOracle : SearchOracle :=
  { stateEvaluation := fun _ => .error (.oracleFail "not consulted")
    getSuccessors := fun _ => .error (.oracleFail "not consulted") }

/-- A cache entry as used by the cache-probe witness. -/
def probeWitnessEntry : PendingCacheEntry :=
  { computedValue := .ok (XQ.fin (1/2)), budget := 100 }

/-- A search state holding one minimax cache entry for kingsOnlyState. -/
def probeWitnessSearchState : SearchState :=
  { initialSearchState with
      minimaxCache := [(hashGameState kingsOnlyState, probeWitnessEntry)] }

/-- Root child results with equal values, first and second, for the
tie-break reduction witness. -/
def tiePairOne : MinimaxIterationResult × Move :=
  ({ computedValue := XQ.fin 1, usedBudget := 0 }, tieMoveOne)

def tiePairTwo : MinimaxIterationResult × Move :=
  ({ computedValue := XQ.fin 1, usedBudget := 0 }, tieMoveTwo)

/-- A no-logprobs evaluate answer whose content is neither literal. -/
def drawContentChoice : MessageChoice :=
  { message := { role := "assistant", content := some "draw" }, logprobs := none }

/-- A no-logprobs evaluate answer with the literal black content. -/
def blackContentChoice : MessageChoice :=
  { message := { role := "assistant", content := some "black" }, logprobs := none }

/-! # Helper lemmas -/

set_option maxRecDepth 10000

theorem alGet_alSet_self {α : Type} (l : List (String × α)) (k : String)
    (v : α) : alGet (alSet l k v) k = some v := by
  induction l with
  | nil => simp [alSet, alGet]
  | cons p rest ih =>
    by_cases hk : p.1 = k
    · simp [alSet, hk, alGet]
    · simp [alSet, hk, alGet, ih]

theorem descAttempts_always_fails (callLLM : CallLLM)
    (hfail : ∀ i, ∃ msg, callLLM i = .error msg) :
    ∀ (n ctr : Nat), descAttempts callLLM n ctr = (none, n) := by
  intro n
  induction n with
  | zero => intro ctr; rfl
  | succ m ih =>
    intro ctr
    obtain ⟨msg, hm⟩ := hfail ctr
    simp [descAttempts, hm, ih]

theorem movePieceAccordingToMove_moveHistory (gs : GameState) (move : Move)
    (gs2 : GameState) (h : movePieceAccordingToMove gs move = .ok gs2) :
    gs2.moveHistory = gs.moveHistory := by
  unfold movePieceAccordingToMove at h
  split at h
  · exact absurd h (by simp)
  · injection h with h2
    rw [← h2]

/-! # Claim theorems -/

/-- C1 (code bug): the two states differ (a white rook on d4 against a
white knight on d4, every other cell equal), so their legal-move sets
differ, yet hashGameState maps them to the same string, because
hashCellState never returns the tag it builds for an occupied cell and the
JavaScript undefined concatenates as the same text for every piece.  The
claim that equal hashes imply equal legal-move sets, and that the hash
encodes color, type and hasMoved per cell, fails on the code. -/
theorem claim_C1_hash_collision :
    hashGameState hashPairRookState = hashGameState hashPairKnightState ∧
    hashPairRookState ≠ hashPairKnightState ∧
    getAllLegalMoves hashPairRookState PlayerColor.white ≠
      getAllLegalMoves hashPairKnightState PlayerColor.white := by
  decide

/-- C2 (code bug): in epWindowState the black pawn on d4 has the en-passant
capture d4 to e3 (first conjunct, the next-ply availability the claim
asserts).  After the quiet black reply h6 and the quiet white reply h3,
which is not a pawn double move (third conjunct), the same en-passant
capture is still generated for black (second conjunct), because
movePieceAccordingToMove clears justMoved2 only on the piece that moves and
never sweeps the rest of the board.  The claim says the capture must be
gone after such a white move. -/
theorem claim_C2_en_passant_window_persists :
    epCaptureMove ∈ getAllLegalMoves epWindowState PlayerColor.black ∧
    ((makeMove epWindowState epFillerBlackMove).bind
        (fun s => makeMove s epFillerWhiteMove)).map
      (fun s3 => decide (epCaptureMove ∈ getAllLegalMoves s3 PlayerColor.black)) =
      .ok true ∧
    epFillerWhiteMove.isPawnMoving2 = false := by
  decide

/-- C3 (code bug): on a transport whose every call throws, the successor
retry loop never leaves and never raises the exhaustion error: after any
number of calls it is still running with the try counter untouched, because
the catch around the LLM call continues past the counter increment at the
bottom of the loop body.  The description and the evaluation retry loops,
by contrast, stop after exactly maxLLMTries failing calls as the claim
states, so the claim fails only on getSuccessors. -/
theorem claim_C3_successor_retry_unbounded :
    (∀ (validMoveMapping : List (String × Move)) (fuel ctr : Nat),
      succAttempts alwaysFailLLM validMoveMapping fuel ctr 0 =
        (SuccLoopOutcome.stillRunning, fuel)) ∧
    (∀ ctr, descAttempts alwaysFailLLM maxLLMTries ctr = (none, maxLLMTries)) ∧
    (∀ ctr, evalAttempts alwaysFailLLM maxLLMTries ctr = (none, maxLLMTries)) := by
  refine ⟨fun validMoveMapping fuel => ?_, fun ctr => rfl, fun ctr => rfl⟩
  induction fuel with
  | zero => intro ctr; rfl
  | succ m ih =>
    intro ctr
    simp [succAttempts, alwaysFailLLM, maxLLMTries, ih]

/-- C4 (counterexample): an evaluate answer without log-probabilities whose
content is the literal draw, neither black nor white, makes the no-logprobs
branch of stateEvaluation return plus one; no error is raised, contrary to
the claim that any content other than the two literals raises a search
error. -/
theorem claim_C4_counterexample :
    stateEvaluationFromChoice id drawContentChoice = .ok 1 ∧
    drawContentChoice.message.content ≠ some "black" ∧
    drawContentChoice.message.content ≠ some "white" := by
  decide

/-- C4 (amended): when the evaluate response carries no log-probabilities,
stateEvaluation returns minus one exactly when the content is the literal
black, and plus one for every other content, the literal white included but
also any other text; this branch never raises. -/
theorem claim_C4_amended (expFn : ℚ → ℚ) (messageChoice : MessageChoice)
    (hnolp : messageChoice.logprobs = none) :
    stateEvaluationFromChoice expFn messageChoice =
      .ok (if messageChoice.message.content = some "black" then -1 else 1) := by
  unfold stateEvaluationFromChoice
  rw [hnolp]
  by_cases hb : messageChoice.message.content = some "black" <;> simp [hb]

/-- C4 (witness): the amended statement evaluated at the black-content
no-logprobs answer. -/
theorem claim_C4_witness :
    stateEvaluationFromChoice id blackContentChoice =
      .ok (if blackContentChoice.message.content = some "black" then -1 else 1) :=
  claim_C4_amended id blackContentChoice rfl

/-- C9 (counterexample): makeMove on a game constructed from
purityStartState succeeds and yields purityEndState, which differs from the
input state (the pawn cell, its hasMoved flag, the turn and the move
history all changed).  Because the ChessGame constructor stores the
caller-supplied state object by reference and makeMove mutates it in
place, purityEndState is exactly what the caller-held input state contains
after the call, so the input is mutated and the purity claim fails. -/
theorem claim_C9_counterexample :
    makeMove purityStartState purityPawnMove = .ok purityEndState ∧
    purityEndState ≠ purityStartState := by
  decide

theorem map_flipTurn_ok {x : Except String GameState} {g : GameState}
    (h : x.map flipTurn = .ok g) : ∃ y, x = .ok y ∧ g = flipTurn y := by
  cases x with
  | error e => simp [Except.map] at h
  | ok y =>
    refine ⟨y, rfl, ?_⟩
    simp only [Except.map] at h
    injection h with h2
    rw [h2]

theorem flip_move_history {a : GameState} {move : Move} {g : GameState}
    (h : (movePieceAccordingToMove a move).map flipTurn = .ok g) :
    g.moveHistory = a.moveHistory := by
  obtain ⟨y, hx, hg⟩ := map_flipTurn_ok h
  rw [hg]
  simpa [flipTurn] using movePieceAccordingToMove_moveHistory _ _ _ hx

theorem executeEnPassant_moveHistory (gs : GameState) (move : Move)
    (gs1 : GameState) (h : executeEnPassant gs move = .ok gs1) :
    gs1.moveHistory = gs.moveHistory ++ [move] := by
  simp only [executeEnPassant] at h
  split at h <;>
    first
    | (simp at h; done)
    | simp [flip_move_history h, addMoveToHistory]
    | (split at h <;>
        first
        | (simp at h; done)
        | simp [flip_move_history h, addMoveToHistory]
        | (split at h <;>
            first
            | (simp at h; done)
            | simp [flip_move_history h, addMoveToHistory]))

theorem executeCastling_moveHistory (gs : GameState) (move : Move)
    (gs1 : GameState) (h : executeCastling gs move = .ok gs1) :
    gs1.moveHistory = gs.moveHistory ++ [move] := by
  simp only [executeCastling] at h
  first
  | (simp at h; done)
  | simp [flip_move_history h, addMoveToHistory]

/-- C9 (amended): makeMove is not pure on the aliased input: every
successful application appends the move to the stored move history, so the
state object the caller handed to the constructor never equals its pre-call
value afterwards.  Callers that need purity clone first, as getSuccessors
and doesMovePutMovingPlayerInCheck do through cloneDeep / getGameState. -/
theorem claim_C9_amended (gs : GameState) (move : Move) (gs1 : GameState)
    (h : makeMove gs move = .ok gs1) :
    gs1.moveHistory = gs.moveHistory ++ [move] ∧ gs1 ≠ gs := by
  have hh : gs1.moveHistory = gs.moveHistory ++ [move] := by
    simp only [makeMove] at h
    split at h
    · simp at h
    · split at h
      · simp at h
      · split at h
        · exact executeEnPassant_moveHistory gs move gs1 h
        · split at h
          · exact executeCastling_moveHistory gs move gs1 h
          · simp [flip_move_history h, addMoveToHistory]
  refine ⟨hh, fun he => ?_⟩
  rw [he] at hh
  have := congrArg List.length hh
  simp at this

/-- C9 (witness): the amended statement evaluated at the pawn step from
purityStartState. -/
theorem claim_C9_witness :
    purityEndState.moveHistory = purityStartState.moveHistory ++ [purityPawnMove] ∧
    purityEndState ≠ purityStartState :=
  claim_C9_amended purityStartState purityPawnMove purityEndState (by decide)

/-- C10 (confirmed): when the description cache has no entry for the hash
of the state and every oracle call fails, getGameDescription makes exactly
maxLLMTries calls, rejects with the exhaustion error, and stores that
rejected outcome in the description cache under the state hash; a second
request for the same state then returns the same error immediately, with
no state change and hence no further oracle call. -/
theorem claim_C10_description_failure_cached (callLLM : CallLLM)
    (gameState : GameState) (st : DescState)
    (hmiss : alGet st.gameDescriptionCache (hashGameState gameState) = none)
    (hfail : ∀ i, ∃ msg, callLLM i = .error msg) :
    (getGameDescription callLLM gameState st).1 = .error .exhausted ∧
    (getGameDescription callLLM gameState st).2.llmCalls =
      st.llmCalls + maxLLMTries ∧
    alGet (getGameDescription callLLM gameState st).2.gameDescriptionCache
      (hashGameState gameState) = some (.error .exhausted) ∧
    getGameDescription callLLM gameState
        (getGameDescription callLLM gameState st).2 =
      (.error .exhausted, (getGameDescription callLLM gameState st).2) := by
  have hd := descAttempts_always_fails callLLM hfail maxLLMTries st.llmCalls
  have hrun : getGameDescription callLLM gameState st =
      (.error .exhausted,
       { st with
           llmCalls := st.llmCalls + maxLLMTries,
           gameDescriptionCache :=
             (alSet st.gameDescriptionCache (hashGameState gameState)
               (.error .exhausted)) }) := by
    simp only [getGameDescription]
    rw [hmiss, hd]
  refine ⟨by rw [hrun], by rw [hrun], ?_, ?_⟩
  · rw [hrun]
    exact alGet_alSet_self _ _ _
  · rw [hrun]
    simp only [getGameDescription]
    rw [alGet_alSet_self]

/-- C10 (witness): the statement evaluated on a fresh agent, the
kings-only state and the always-failing transport. -/
theorem claim_C10_witness :
    (getGameDescription alwaysFailLLM kingsOnlyState ⟨[], 0⟩).1 =
      .error .exhausted ∧
    (getGameDescription alwaysFailLLM kingsOnlyState ⟨[], 0⟩).2.llmCalls =
      0 + maxLLMTries ∧
    alGet (getGameDescription alwaysFailLLM kingsOnlyState
        ⟨[], 0⟩).2.gameDescriptionCache (hashGameState kingsOnlyState) =
      some (.error .exhausted) ∧
    getGameDescription alwaysFailLLM kingsOnlyState
        (getGameDescription alwaysFailLLM kingsOnlyState ⟨[], 0⟩).2 =
      (.error .exhausted,
       (getGameDescription alwaysFailLLM kingsOnlyState ⟨[], 0⟩).2) :=
  claim_C10_description_failure_cached alwaysFailLLM kingsOnlyState ⟨[], 0⟩
    rfl (fun i => ⟨"LLM call failed", rfl⟩)

/-- C5 (confirmed): when the minimax cache holds an entry for the hash of
the state whose budget is at least the requested budget, or within
budgetCacheTolerance of it, minimax returns the value of that entry (through
its shared future, so a stored rejection rethrows) with usedBudget 0 and a
completely unchanged search state: no oracle call, no cache write, no log
write.  In particular a re-request with a budget at most the cached budget
satisfies the first disjunct and returns the cached value. -/
theorem claim_C5_cache_probe (o : SearchOracle) (cfg : MinimaxSetup)
    (fuel depth : Nat) (gameState : GameState) (budget : ℚ) (alpha beta : XQ)
    (maximizingPlayer : Bool) (st : SearchState) (entry : PendingCacheEntry)
    (hentry : alGet st.minimaxCache (hashGameState gameState) = some entry)
    (hcompat : entry.budget ≥ budget ∨
      |entry.budget - budget| < budgetCacheTolerance) :
    minimax o cfg (fuel + 1) depth gameState budget alpha beta maximizingPlayer st =
      (entry.computedValue.map
        (fun v => { computedValue := v, usedBudget := 0 }), st) := by
  simp only [minimax, minimaxCacheProbe]
  rw [hentry]
  simp [hcompat]

/-- C5 (witness): the cache-probe statement evaluated on a state whose
hash is cached with value one half under budget 100 and re-requested with
budget 50. -/
theorem claim_C5_witness :
    minimax unusedOracle defaultCostSetup 1 0 kingsOnlyState 50 XQ.negInf
        XQ.posInf true probeWitnessSearchState =
      (.ok { computedValue := XQ.fin (1/2), usedBudget := 0 },
       probeWitnessSearchState) := by
  have h := claim_C5_cache_probe unusedOracle defaultCostSetup 0 0 kingsOnlyState
    50 XQ.negInf XQ.posInf true probeWitnessSearchState probeWitnessEntry rfl
    (Or.inl (by norm_num [probeWitnessEntry]))
  simpa [probeWitnessEntry, Except.map] using h

/-- C7 (confirmed): on a cache-probe miss, a state whose endgame
classification is checkmateWhite makes minimax return minus one, and
checkmateBlack plus one, in both cases with usedBudget equal to
basicMinimaxCost and with the search state changed only by storing that
value in the minimax cache (under the used budget) before returning: the
oracle call counters, the successors cache and the log are untouched, so
neither evaluate nor getSuccessors runs. -/
theorem claim_C7_terminal_probe (o : SearchOracle) (cfg : MinimaxSetup)
    (fuel depth : Nat) (gameState : GameState) (budget : ℚ) (alpha beta : XQ)
    (maximizingPlayer : Bool) (st : SearchState)
    (hmiss : alGet st.minimaxCache (hashGameState gameState) = none) :
    (getEndgameState gameState = .checkmateWhite →
      minimax o cfg (fuel + 1) depth gameState budget alpha beta maximizingPlayer st =
        (.ok ⟨XQ.fin (-1), cfg.basicMinimaxCost⟩,
         { st with minimaxCache := (alSet st.minimaxCache
             (hashGameState gameState)
             ⟨.ok (XQ.fin (-1)), cfg.basicMinimaxCost⟩) }) ∧
      alGet (minimax o cfg (fuel + 1) depth gameState budget alpha beta
          maximizingPlayer st).2.minimaxCache (hashGameState gameState) =
        some ⟨.ok (XQ.fin (-1)), cfg.basicMinimaxCost⟩) ∧
    (getEndgameState gameState = .checkmateBlack →
      minimax o cfg (fuel + 1) depth gameState budget alpha beta maximizingPlayer st =
        (.ok ⟨XQ.fin 1, cfg.basicMinimaxCost⟩,
         { st with minimaxCache := (alSet st.minimaxCache
             (hashGameState gameState)
             ⟨.ok (XQ.fin 1), cfg.basicMinimaxCost⟩) }) ∧
      alGet (minimax o cfg (fuel + 1) depth gameState budget alpha beta
          maximizingPlayer st).2.minimaxCache (hashGameState gameState) =
        some ⟨.ok (XQ.fin 1), cfg.basicMinimaxCost⟩) := by
  have hprobe : minimaxCacheProbe st.minimaxCache (hashGameState gameState)
      budget = none := by
    simp [minimaxCacheProbe, hmiss]
  constructor
  · intro hw
    have hrun : minimax o cfg (fuel + 1) depth gameState budget alpha beta
        maximizingPlayer st =
        (.ok ⟨XQ.fin (-1), cfg.basicMinimaxCost⟩,
         { st with minimaxCache := (alSet st.minimaxCache
             (hashGameState gameState)
             ⟨.ok (XQ.fin (-1)), cfg.basicMinimaxCost⟩) }) := by
      simp only [minimax]
      rw [hprobe, hw]
      simp [addToMinimaxCache, hmiss]
    exact ⟨hrun, by rw [hrun]; exact alGet_alSet_self _ _ _⟩
  · intro hb
    have hrun : minimax o cfg (fuel + 1) depth gameState budget alpha beta
        maximizingPlayer st =
        (.ok ⟨XQ.fin 1, cfg.basicMinimaxCost⟩,
         { st with minimaxCache := (alSet st.minimaxCache
             (hashGameState gameState)
             ⟨.ok (XQ.fin 1), cfg.basicMinimaxCost⟩) }) := by
      simp only [minimax]
      rw [hprobe, hb]
      simp [addToMinimaxCache, hmiss]
    exact ⟨hrun, by rw [hrun]; exact alGet_alSet_self _ _ _⟩

/-- C7 (witness): the terminal-probe statement evaluated on a fresh agent
at the cornered-white-king mate with budget 50. -/
theorem claim_C7_witness :
    minimax unusedOracle defaultCostSetup 1 0 mateAgainstWhiteState 50 XQ.negInf
        XQ.posInf true initialSearchState =
      (.ok ⟨XQ.fin (-1), defaultCostSetup.basicMinimaxCost⟩,
       { initialSearchState with minimaxCache := (alSet
           initialSearchState.minimaxCache (hashGameState mateAgainstWhiteState)
           ⟨.ok (XQ.fin (-1)), defaultCostSetup.basicMinimaxCost⟩) }) ∧
    alGet (minimax unusedOracle defaultCostSetup 1 0 mateAgainstWhiteState 50
        XQ.negInf XQ.posInf true initialSearchState).2.minimaxCache
      (hashGameState mateAgainstWhiteState) =
      some ⟨.ok (XQ.fin (-1)), defaultCostSetup.basicMinimaxCost⟩ :=
  (claim_C7_terminal_probe unusedOracle defaultCostSetup 0 0 mateAgainstWhiteState
    50 XQ.negInf XQ.posInf true initialSearchState rfl).1 (by decide)

/-- C6 (counterexample): with the stub oracle proposing the successors
(tieMoveOne first, tieMoveTwo second) and evaluating every child to the
same value, selectMove on the white-to-move root returns tieMoveTwo, the
last child, not the first child the claim promises for ties under the
maximizing reduction (the source keeps prev only when strictly greater). -/
theorem claim_C6_counterexample :
    tieOracle.getSuccessors tieRootState =
      .ok [{ nextState := tieChildOneState, move := tieMoveOne, probability := 1/2 },
           { nextState := tieChildTwoState, move := tieMoveTwo, probability := 1/2 }] ∧
    tieOracle.stateEvaluation tieChildOneState =
      tieOracle.stateEvaluation tieChildTwoState ∧
    tieRootState.turn = PlayerColor.white ∧
    (selectMove tieOracle defaultCostSetup tieRootState initialSearchState).1 =
      .ok tieMoveTwo ∧
    tieMoveTwo ≠ tieMoveOne := by
  with_unfolding_all decide

theorem XQ.blt_self (a : XQ) : XQ.blt a a = false := by
  cases a <;> simp [XQ.blt]

theorem XQ.ble_self (a : XQ) : XQ.ble a a = true := by
  cases a <;> simp [XQ.ble, XQ.blt]

theorem XQ.blt_asymm {a b : XQ} (h : XQ.blt a b = true) :
    XQ.blt b a = false := by
  cases a <;> cases b <;> simp_all [XQ.blt] <;> linarith

theorem XQ.ble_trans {a b c : XQ} (h1 : XQ.ble a b = true)
    (h2 : XQ.ble b c = true) : XQ.ble a c = true := by
  cases a <;> cases b <;> cases c <;> simp_all [XQ.ble, XQ.blt] <;> linarith

theorem selectMoveReduceMax_cases (r x : MinimaxIterationResult × Move) :
    selectMoveReduceMax r x = r ∨ selectMoveReduceMax r x = x := by
  unfold selectMoveReduceMax
  split <;> simp

theorem ble_selectMoveReduceMax_left (r x : MinimaxIterationResult × Move) :
    XQ.ble r.1.computedValue
      (selectMoveReduceMax r x).1.computedValue = true := by
  unfold selectMoveReduceMax
  split
  · exact XQ.ble_self _
  · next h => simp [XQ.ble, Bool.not_eq_true] at h ⊢; simpa using h

theorem ble_selectMoveReduceMax_right (r x : MinimaxIterationResult × Move) :
    XQ.ble x.1.computedValue
      (selectMoveReduceMax r x).1.computedValue = true := by
  unfold selectMoveReduceMax
  split
  · next h => simp [XQ.ble, XQ.blt_asymm h]
  · exact XQ.ble_self _

theorem ble_selectMoveReduceMin_left (r x : MinimaxIterationResult × Move) :
    XQ.ble (selectMoveReduceMin r x).1.computedValue
      r.1.computedValue = true := by
  unfold selectMoveReduceMin
  split
  · exact XQ.ble_self _
  · next h => simp [XQ.ble, Bool.not_eq_true] at h ⊢; simpa using h

theorem ble_selectMoveReduceMin_right (r x : MinimaxIterationResult × Move) :
    XQ.ble (selectMoveReduceMin r x).1.computedValue
      x.1.computedValue = true := by
  unfold selectMoveReduceMin
  split
  · next h => simp [XQ.ble, XQ.blt_asymm h]
  · exact XQ.ble_self _

theorem foldl_selectMoveReduceMax_mem :
    ∀ (rest : List (MinimaxIterationResult × Move)) (first : MinimaxIterationResult × Move),
      rest.foldl selectMoveReduceMax first ∈ first :: rest := by
  intro rest
  induction rest with
  | nil => intro first; simp
  | cons y ys ih =>
    intro first
    have h := ih (selectMoveReduceMax first y)
    rcases selectMoveReduceMax_cases first y with hc | hc <;>
      (rw [hc] at h; simp [List.foldl_cons]; rcases List.mem_cons.mp h with h2 | h2 <;>
        simp [h2, hc])

theorem foldl_selectMoveReduceMax_ble :
    ∀ (rest : List (MinimaxIterationResult × Move)) (first x : MinimaxIterationResult × Move),
      x ∈ first :: rest →
      XQ.ble x.1.computedValue
        ((rest.foldl selectMoveReduceMax first)).1.computedValue = true := by
  intro rest
  induction rest with
  | nil =>
    intro first x hx
    simp at hx
    subst hx
    exact XQ.ble_self _
  | cons y ys ih =>
    intro first x hx
    have hstep : XQ.ble (selectMoveReduceMax first y).1.computedValue
        ((ys.foldl selectMoveReduceMax (selectMoveReduceMax first y))).1.computedValue = true :=
      ih (selectMoveReduceMax first y) _ (List.mem_cons_self _ _)
    rcases List.mem_cons.mp hx with h1 | h1
    · subst h1
      exact XQ.ble_trans (ble_selectMoveReduceMax_left x y) hstep
    · rcases List.mem_cons.mp h1 with h2 | h2
      · subst h2
        exact XQ.ble_trans (ble_selectMoveReduceMax_right first x) hstep
      · exact ih (selectMoveReduceMax first y) x (List.mem_cons_of_mem _ h2)

theorem foldl_selectMoveReduceMin_mem :
    ∀ (rest : List (MinimaxIterationResult × Move)) (first : MinimaxIterationResult × Move),
      rest.foldl selectMoveReduceMin first ∈ first :: rest := by
  intro rest
  induction rest with
  | nil => intro first; simp
  | cons y ys ih =>
    intro first
    have h := ih (selectMoveReduceMin first y)
    have hc : selectMoveReduceMin first y = first ∨ selectMoveReduceMin first y = y := by
      unfold selectMoveReduceMin
      split <;> simp
    rcases hc with hc | hc <;>
      (rw [hc] at h; simp [List.foldl_cons]; rcases List.mem_cons.mp h with h2 | h2 <;>
        simp [h2, hc])

theorem foldl_selectMoveReduceMin_ble :
    ∀ (rest : List (MinimaxIterationResult × Move)) (first x : MinimaxIterationResult × Move),
      x ∈ first :: rest →
      XQ.ble ((rest.foldl selectMoveReduceMin first)).1.computedValue
        x.1.computedValue = true := by
  intro rest
  induction rest with
  | nil =>
    intro first x hx
    simp at hx
    subst hx
    exact XQ.ble_self _
  | cons y ys ih =>
    intro first x hx
    have hstep : XQ.ble ((ys.foldl selectMoveReduceMin (selectMoveReduceMin first y))).1.computedValue
        (selectMoveReduceMin first y).1.computedValue = true :=
      ih (selectMoveReduceMin first y) _ (List.mem_cons_self _ _)
    rcases List.mem_cons.mp hx with h1 | h1
    · subst h1
      exact XQ.ble_trans hstep (ble_selectMoveReduceMin_left x y)
    · rcases List.mem_cons.mp h1 with h2 | h2
      · subst h2
        exact XQ.ble_trans hstep (ble_selectMoveReduceMin_right first x)
      · exact ih (selectMoveReduceMin first y) x (List.mem_cons_of_mem _ h2)

theorem foldl_selectMoveReduceMax_const :
    ∀ (rest : List (MinimaxIterationResult × Move)) (first : MinimaxIterationResult × Move),
      (∀ x ∈ rest, x.1.computedValue = first.1.computedValue) →
      rest.foldl selectMoveReduceMax first = rest.getLastD first := by
  intro rest
  induction rest with
  | nil => intro first _; rfl
  | cons y ys ih =>
    intro first h
    have hy : y.1.computedValue = first.1.computedValue :=
      h y (List.mem_cons_self _ _)
    have hstep : selectMoveReduceMax first y = y := by
      unfold selectMoveReduceMax
      rw [hy, XQ.blt_self]
      simp
    simp only [List.foldl_cons, hstep, List.getLastD_cons]
    exact ih y (fun x hx => by rw [h x (List.mem_cons_of_mem _ hx), hy])

theorem foldl_selectMoveReduceMin_const :
    ∀ (rest : List (MinimaxIterationResult × Move)) (first : MinimaxIterationResult × Move),
      (∀ x ∈ rest, x.1.computedValue = first.1.computedValue) →
      rest.foldl selectMoveReduceMin first = rest.getLastD first := by
  intro rest
  induction rest with
  | nil => intro first _; rfl
  | cons y ys ih =>
    intro first h
    have hy : y.1.computedValue = first.1.computedValue :=
      h y (List.mem_cons_self _ _)
    have hstep : selectMoveReduceMin first y = y := by
      unfold selectMoveReduceMin
      rw [← hy, XQ.blt_self]
      simp
    simp only [List.foldl_cons, hstep, List.getLastD_cons]
    exact ih y (fun x hx => by rw [h x (List.mem_cons_of_mem _ hx), hy])

/-- C6 (amended): the root reduction of selectMove picks a child whose
value is maximal (white to move, the reduce with the strict greater-than)
or minimal (black to move, the reduce with the strict less-than), seeded by
the first child as JavaScript reduce without an initial value; on ties
among children with equal values the LAST child in successor order wins
under both reductions, because the reduce keeps prev only on a strict
comparison. -/
theorem claim_C6_amended (first : MinimaxIterationResult × Move)
    (rest : List (MinimaxIterationResult × Move)) :
    (rest.foldl selectMoveReduceMax first ∈ first :: rest ∧
     ∀ x ∈ first :: rest,
       XQ.ble x.1.computedValue
         ((rest.foldl selectMoveReduceMax first)).1.computedValue = true) ∧
    (rest.foldl selectMoveReduceMin first ∈ first :: rest ∧
     ∀ x ∈ first :: rest,
       XQ.ble ((rest.foldl selectMoveReduceMin first)).1.computedValue
         x.1.computedValue = true) ∧
    ((∀ x ∈ rest, x.1.computedValue = first.1.computedValue) →
      rest.foldl selectMoveReduceMax first = rest.getLastD first ∧
      rest.foldl selectMoveReduceMin first = rest.getLastD first) :=
  ⟨⟨foldl_selectMoveReduceMax_mem rest first,
    fun x hx => foldl_selectMoveReduceMax_ble rest first x hx⟩,
   ⟨foldl_selectMoveReduceMin_mem rest first,
    fun x hx => foldl_selectMoveReduceMin_ble rest first x hx⟩,
   fun h => ⟨foldl_selectMoveReduceMax_const rest first h,
     foldl_selectMoveReduceMin_const rest first h⟩⟩

/-- C6 (witness): the amended statement evaluated on two tied children;
both reductions return the second (last) child. -/
theorem claim_C6_witness :
    (([tiePairTwo].foldl selectMoveReduceMax tiePairOne ∈ tiePairOne :: [tiePairTwo]) ∧
     ∀ x ∈ tiePairOne :: [tiePairTwo],
       XQ.ble x.1.computedValue
         (([tiePairTwo].foldl selectMoveReduceMax tiePairOne)).1.computedValue = true) ∧
    (([tiePairTwo].foldl selectMoveReduceMin tiePairOne ∈ tiePairOne :: [tiePairTwo]) ∧
     ∀ x ∈ tiePairOne :: [tiePairTwo],
       XQ.ble (([tiePairTwo].foldl selectMoveReduceMin tiePairOne)).1.computedValue
         x.1.computedValue = true) ∧
    ((∀ x ∈ [tiePairTwo], x.1.computedValue = tiePairOne.1.computedValue) →
      [tiePairTwo].foldl selectMoveReduceMax tiePairOne = [tiePairTwo].getLastD tiePairOne ∧
      [tiePairTwo].foldl selectMoveReduceMin tiePairOne = [tiePairTwo].getLastD tiePairOne) :=
  claim_C6_amended tiePairOne [tiePairTwo]

theorem runChildrenPar_log {P : LogEvent → Prop} (recCall : MinimaxRec)
    (budgetForSearch : ℚ) (childMaximizing : Bool)
    (hrec : ∀ ns cb a b m st0 e, e ∈ (recCall ns cb a b m st0).2.log →
      e ∈ st0.log ∨ P e) :
    ∀ (succs : List GameStateProgression) (st : SearchState) (e : LogEvent),
      e ∈ (runChildrenPar recCall budgetForSearch childMaximizing succs st).2.log →
      e ∈ st.log ∨ P e := by
  intro succs
  induction succs with
  | nil =>
    intro st e he
    simp only [runChildrenPar] at he
    exact Or.inl he
  | cons s rest ih =>
    intro st e he
    simp only [runChildrenPar] at he
    rcases ih _ e he with h | h
    · exact hrec _ _ _ _ _ _ e h
    · exact Or.inr h

theorem minimaxSerialMax_log {P : LogEvent → Prop} (recCall : MinimaxRec)
    (budgetForSearch : ℚ)
    (hrec : ∀ ns cb a b m st0 e, e ∈ (recCall ns cb a b m st0).2.log →
      e ∈ st0.log ∨ P e) :
    ∀ (succs : List GameStateProgression) (best alpha beta : XQ) (used : ℚ)
      (st : SearchState) (e : LogEvent),
      e ∈ (minimaxSerialMax recCall budgetForSearch succs best alpha beta
        used st).2.log → e ∈ st.log ∨ P e := by
  intro succs
  induction succs with
  | nil =>
    intro best alpha beta used st e he
    simp only [minimaxSerialMax] at he
    exact Or.inl he
  | cons s rest ih =>
    intro best alpha beta used st e he
    simp only [minimaxSerialMax] at he
    split at he
    · next heq =>
      have h2 : e ∈ (recCall s.nextState (budgetForSearch * s.probability)
          alpha beta false st).2.log := by
        rw [heq]
        exact he
      exact hrec _ _ _ _ _ _ e h2
    · next r1 st1 heq =>
      split at he
      · have h2 : e ∈ (recCall s.nextState (budgetForSearch * s.probability)
            alpha beta false st).2.log := by
          rw [heq]
          exact he
        exact hrec _ _ _ _ _ _ e h2
      · rcases ih _ _ _ _ _ e he with h | h
        · have h2 : e ∈ (recCall s.nextState (budgetForSearch * s.probability)
              alpha beta false st).2.log := by
            rw [heq]
            exact h
          exact hrec _ _ _ _ _ _ e h2
        · exact Or.inr h

theorem minimaxSerialMin_log {P : LogEvent → Prop} (recCall : MinimaxRec)
    (budgetForSearch : ℚ)
    (hrec : ∀ ns cb a b m st0 e, e ∈ (recCall ns cb a b m st0).2.log →
      e ∈ st0.log ∨ P e) :
    ∀ (succs : List GameStateProgression) (best alpha beta : XQ) (used : ℚ)
      (st : SearchState) (e : LogEvent),
      e ∈ (minimaxSerialMin recCall budgetForSearch succs best alpha beta
        used st).2.log → e ∈ st.log ∨ P e := by
  intro succs
  induction succs with
  | nil =>
    intro best alpha beta used st e he
    simp only [minimaxSerialMin] at he
    exact Or.inl he
  | cons s rest ih =>
    intro best alpha beta used st e he
    simp only [minimaxSerialMin] at he
    split at he
    · next heq =>
      have h2 : e ∈ (recCall s.nextState (budgetForSearch * s.probability)
          alpha beta true st).2.log := by
        rw [heq]
        exact he
      exact hrec _ _ _ _ _ _ e h2
    · next r1 st1 heq =>
      split at he
      · have h2 : e ∈ (recCall s.nextState (budgetForSearch * s.probability)
            alpha beta true st).2.log := by
          rw [heq]
          exact he
        exact hrec _ _ _ _ _ _ e h2
      · rcases ih _ _ _ _ _ e he with h | h
        · have h2 : e ∈ (recCall s.nextState (budgetForSearch * s.probability)
              alpha beta true st).2.log := by
            rw [heq]
            exact h
          exact hrec _ _ _ _ _ _ e h2
        · exact Or.inr h

theorem minimaxParallelTreeSearch_log {P : LogEvent → Prop}
    (recCall : MinimaxRec) (budgetForSearch : ℚ)
    (hrec : ∀ ns cb a b m st0 e, e ∈ (recCall ns cb a b m st0).2.log →
      e ∈ st0.log ∨ P e)
    (succs : List GameStateProgression) (maximizingPlayer : Bool)
    (st : SearchState) (e : LogEvent)
    (he : e ∈ (minimaxParallelTreeSearch recCall budgetForSearch succs
      maximizingPlayer st).2.log) : e ∈ st.log ∨ P e := by
  simp only [minimaxParallelTreeSearch] at he
  exact runChildrenPar_log recCall budgetForSearch _ hrec succs st e he

theorem minimaxSerialTreeSearch_log {P : LogEvent → Prop}
    (recCall : MinimaxRec) (budgetForSearch : ℚ)
    (hrec : ∀ ns cb a b m st0 e, e ∈ (recCall ns cb a b m st0).2.log →
      e ∈ st0.log ∨ P e)
    (succs : List GameStateProgression) (alpha beta : XQ)
    (maximizingPlayer : Bool) (st : SearchState) (e : LogEvent)
    (he : e ∈ (minimaxSerialTreeSearch recCall budgetForSearch succs alpha beta
      maximizingPlayer st).2.log) : e ∈ st.log ∨ P e := by
  simp only [minimaxSerialTreeSearch] at he
  split at he
  · exact minimaxSerialMax_log recCall budgetForSearch hrec _ _ _ _ _ _ e he
  · exact minimaxSerialMin_log recCall budgetForSearch hrec _ _ _ _ _ _ e he

theorem minimaxTreeSearchPart_log {P : LogEvent → Prop} (cfg : MinimaxSetup)
    (recCall : MinimaxRec) (depth : Nat) (budget usedBudget1 : ℚ)
    (alpha beta : XQ) (maximizingPlayer : Bool)
    (hrec : ∀ ns cb a b m st0 e, e ∈ (recCall ns cb a b m st0).2.log →
      e ∈ st0.log ∨ P e)
    (hPiter : ∀ v u, P (LogEvent.minimaxIter depth v u))
    (succs : List GameStateProgression) (st : SearchState) (e : LogEvent)
    (he : e ∈ (minimaxTreeSearchPart cfg recCall depth budget usedBudget1
      alpha beta maximizingPlayer succs st).2.log) : e ∈ st.log ∨ P e := by
  simp only [minimaxTreeSearchPart] at he
  split at he
  · exact Or.inl he
  · by_cases hp : cfg.parallel
    · rw [if_pos hp] at he
      split at he
      · next heq =>
        have h2 : e ∈ (minimaxParallelTreeSearch recCall (budget - usedBudget1)
            succs maximizingPlayer st).2.log := by
          rw [heq]
          exact he
        exact minimaxParallelTreeSearch_log recCall _ hrec succs
          maximizingPlayer st e h2
      · next r st2 heq =>
        simp only [List.mem_cons] at he
        rcases he with he | he
        · exact Or.inr (he ▸ hPiter _ _)
        · have h2 : e ∈ (minimaxParallelTreeSearch recCall (budget - usedBudget1)
              succs maximizingPlayer st).2.log := by
            rw [heq]
            exact he
          exact minimaxParallelTreeSearch_log recCall _ hrec succs
            maximizingPlayer st e h2
    · rw [if_neg hp] at he
      split at he
      · next heq =>
        have h2 : e ∈ (minimaxSerialTreeSearch recCall (budget - usedBudget1)
            succs alpha beta maximizingPlayer st).2.log := by
          rw [heq]
          exact he
        exact minimaxSerialTreeSearch_log recCall _ hrec succs alpha beta
          maximizingPlayer st e h2
      · next r st2 heq =>
        simp only [List.mem_cons] at he
        rcases he with he | he
        · exact Or.inr (he ▸ hPiter _ _)
        · have h2 : e ∈ (minimaxSerialTreeSearch recCall (budget - usedBudget1)
              succs alpha beta maximizingPlayer st).2.log := by
            rw [heq]
            exact he
          exact minimaxSerialTreeSearch_log recCall _ hrec succs alpha beta
            maximizingPlayer st e h2

theorem minimaxLeafOrExpand_log {P : LogEvent → Prop} (o : SearchOracle)
    (cfg : MinimaxSetup) (recCall : MinimaxRec) (depth : Nat)
    (gameState : GameState) (budget : ℚ) (alpha beta : XQ)
    (maximizingPlayer : Bool)
    (hrec : ∀ ns cb a b m st0 e, e ∈ (recCall ns cb a b m st0).2.log →
      e ∈ st0.log ∨ P e)
    (hPiter : ∀ v u, P (LogEvent.minimaxIter depth v u))
    (hPeval : ∀ v, P (LogEvent.stateEvaluation v depth))
    (st : SearchState) (cached : Option (List GameStateProgression))
    (e : LogEvent)
    (he : e ∈ (minimaxLeafOrExpand o cfg recCall depth gameState budget alpha
      beta maximizingPlayer st cached).2.log) : e ∈ st.log ∨ P e := by
  simp only [minimaxLeafOrExpand] at he
  split at he
  · split at he
    · exact Or.inl he
    · simp only [List.mem_cons] at he
      rcases he with he | he
      · exact Or.inr (he ▸ hPeval _)
      · exact Or.inl he
  · split at he
    · split at he
      · exact Or.inl he
      · rcases minimaxTreeSearchPart_log cfg recCall depth budget _ alpha beta
            maximizingPlayer hrec hPiter _ _ e he with h | h
        · exact Or.inl h
        · exact Or.inr h
    · rcases minimaxTreeSearchPart_log cfg recCall depth budget _ alpha beta
          maximizingPlayer hrec hPiter _ _ e he with h | h
      · exact Or.inl h
      · exact Or.inr h

theorem minimaxLeafOrExpand_log_expand {P : LogEvent → Prop} (o : SearchOracle)
    (cfg : MinimaxSetup) (recCall : MinimaxRec) (depth : Nat)
    (gameState : GameState) (budget : ℚ) (alpha beta : XQ)
    (maximizingPlayer : Bool)
    (hrec : ∀ ns cb a b m st0 e, e ∈ (recCall ns cb a b m st0).2.log →
      e ∈ st0.log ∨ P e)
    (hPiter : ∀ v u, P (LogEvent.minimaxIter depth v u))
    (st : SearchState) (cached : Option (List GameStateProgression))
    (hcond : ¬ minimaxIsLeafCond cfg depth budget cached) (e : LogEvent)
    (he : e ∈ (minimaxLeafOrExpand o cfg recCall depth gameState budget alpha
      beta maximizingPlayer st cached).2.log) : e ∈ st.log ∨ P e := by
  simp only [minimaxLeafOrExpand] at he
  rw [if_neg hcond] at he
  split at he
  · split at he
    · exact Or.inl he
    · rcases minimaxTreeSearchPart_log cfg recCall depth budget _ alpha beta
          maximizingPlayer hrec hPiter _ _ e he with h | h
      · exact Or.inl h
      · exact Or.inr h
  · rcases minimaxTreeSearchPart_log cfg recCall depth budget _ alpha beta
        maximizingPlayer hrec hPiter _ _ e he with h | h
    · exact Or.inl h
    · exact Or.inr h

theorem minimaxCore_log {P : LogEvent → Prop} (o : SearchOracle)
    (cfg : MinimaxSetup) (recCall : MinimaxRec) (depth : Nat)
    (gameState : GameState) (budget : ℚ) (alpha beta : XQ)
    (maximizingPlayer : Bool)
    (hrec : ∀ ns cb a b m st0 e, e ∈ (recCall ns cb a b m st0).2.log →
      e ∈ st0.log ∨ P e)
    (hPiter : ∀ v u, P (LogEvent.minimaxIter depth v u))
    (hPeval : ∀ v, P (LogEvent.stateEvaluation v depth))
    (st : SearchState) (e : LogEvent)
    (he : e ∈ (minimaxCore o cfg recCall depth gameState budget alpha beta
      maximizingPlayer st).2.log) : e ∈ st.log ∨ P e := by
  simp only [minimaxCore] at he
  split at he
  · exact Or.inl he
  · exact minimaxLeafOrExpand_log o cfg recCall depth gameState budget alpha
      beta maximizingPlayer hrec hPiter hPeval st _ e he
  · exact minimaxLeafOrExpand_log o cfg recCall depth gameState budget alpha
      beta maximizingPlayer hrec hPiter hPeval st _ e he

theorem minimax_log_depth (o : SearchOracle) (cfg : MinimaxSetup) :
    ∀ (fuel depth : Nat) (gameState : GameState) (budget : ℚ)
      (alpha beta : XQ) (maximizingPlayer : Bool) (st : SearchState)
      (e : LogEvent),
      e ∈ (minimax o cfg fuel depth gameState budget alpha beta
        maximizingPlayer st).2.log →
      e ∈ st.log ∨ depth ≤ e.depth := by
  intro fuel
  induction fuel with
  | zero =>
    intro depth gameState budget alpha beta maximizingPlayer st e he
    simp only [minimax] at he
    exact Or.inl he
  | succ n ih =>
    intro depth gameState budget alpha beta maximizingPlayer st e he
    simp only [minimax] at he
    split at he
    · exact Or.inl he
    · split at he
      · exact Or.inl he
      · exact Or.inl he
      · refine @minimaxCore_log (fun e0 => depth ≤ e0.depth) o cfg _ depth
          gameState budget alpha beta maximizingPlayer ?_
          (fun v u => Nat.le_refl depth) (fun v => Nat.le_refl depth) st e he
        intro ns cb a b m st0 e0 he0
        rcases ih (depth + 1) ns cb a b m st0 e0 he0 with h | h
        · exact Or.inl h
        · exact Or.inr (Nat.le_of_succ_le h)

/-- C8 (confirmed): after a cache-probe miss on a non-checkmate state, a
minimax node becomes a leaf exactly when depth has reached maxDepth or the
budget is below realizedGetSuccessorsCost plus estimatedNumberOfSuccessors
times stateEvaluationCost plus the budget already used (basicMinimaxCost),
where the realized cost is zero with cached successors and
getSuccessorsCost otherwise, and the estimate is the cached successor
count or the configured estimateNumberOfSuccessors (10 by default, 8 for
the LLM agent).  A leaf charges stateEvaluationCost on top of
basicMinimaxCost and returns the evaluation oracle answer, logging exactly
one stateEvaluation event at this depth; conversely, when the condition
fails, no stateEvaluation event at this depth is ever logged (children log
only at strictly greater depths), which is the observable leaf marker of
the source logging. -/
theorem claim_C8_leaf_decision (o : SearchOracle) (cfg : MinimaxSetup)
    (fuel depth : Nat) (gameState : GameState) (budget : ℚ) (alpha beta : XQ)
    (maximizingPlayer : Bool) (st : SearchState)
    (cached : Option (List GameStateProgression)) (v : ℚ)
    (hlog : st.log = [])
    (hmiss : alGet st.minimaxCache (hashGameState gameState) = none)
    (hend1 : getEndgameState gameState ≠ .checkmateWhite)
    (hend2 : getEndgameState gameState ≠ .checkmateBlack)
    (hsucc : alGet st.successorsCache (hashGameState gameState) =
      Option.map Except.ok cached)
    (heval : o.stateEvaluation gameState = .ok v) :
    (minimaxIsLeafCond cfg depth budget cached →
      minimax o cfg (fuel + 1) depth gameState budget alpha beta
          maximizingPlayer st =
        (.ok ⟨XQ.fin v, cfg.basicMinimaxCost + cfg.stateEvaluationCost⟩,
         { st with
             evalCalls := st.evalCalls + 1,
             log := [LogEvent.stateEvaluation (XQ.fin v) depth],
             minimaxCache := (alSet st.minimaxCache (hashGameState gameState)
               ⟨.ok (XQ.fin v), budget⟩) })) ∧
    ((∃ w, LogEvent.stateEvaluation w depth ∈
        (minimax o cfg (fuel + 1) depth gameState budget alpha beta
          maximizingPlayer st).2.log) ↔
      minimaxIsLeafCond cfg depth budget cached) := by
  have hprobe : minimaxCacheProbe st.minimaxCache (hashGameState gameState)
      budget = none := by
    simp [minimaxCacheProbe, hmiss]
  have hrun : minimaxIsLeafCond cfg depth budget cached →
      minimax o cfg (fuel + 1) depth gameState budget alpha beta
          maximizingPlayer st =
        (.ok ⟨XQ.fin v, cfg.basicMinimaxCost + cfg.stateEvaluationCost⟩,
         { st with
             evalCalls := st.evalCalls + 1,
             log := [LogEvent.stateEvaluation (XQ.fin v) depth],
             minimaxCache := (alSet st.minimaxCache (hashGameState gameState)
               ⟨.ok (XQ.fin v), budget⟩) }) := by
    intro hc
    simp only [minimax, hprobe]
    rcases hge : getEndgameState gameState with _ | _ | _ | _
    · exact absurd hge hend1
    · exact absurd hge hend2
    all_goals
      rcases cached with _ | l <;>
        simp [minimaxCore, minimaxLeafOrExpand, hsucc, hc, heval,
          addToMinimaxCache, hmiss, hlog, Except.map]
  refine ⟨hrun, ?_, fun hc => ?_⟩
  · rintro ⟨w, hw⟩
    by_contra hc
    have hstep : ∀ e, e ∈ (minimax o cfg (fuel + 1) depth gameState budget
        alpha beta maximizingPlayer st).2.log →
        e ∈ st.log ∨ (e.isStateEvaluation = false ∨ depth + 1 ≤ e.depth) := by
      intro e he
      simp only [minimax, hprobe] at he
      rcases hge : getEndgameState gameState with _ | _ | _ | _
      · exact absurd hge hend1
      · exact absurd hge hend2
      all_goals
        rcases cached with _ | l <;>
          (simp only [minimaxCore, hsucc, Option.map] at he
           refine @minimaxLeafOrExpand_log_expand
             (fun e0 => e0.isStateEvaluation = false ∨ depth + 1 ≤ e0.depth)
             o cfg _ depth gameState budget alpha beta maximizingPlayer ?_
             (fun vv u => Or.inl rfl) st _ hc e he
           intro ns cb a b m st0 e0 he0
           rcases minimax_log_depth o cfg fuel (depth + 1) ns cb a b m st0 e0
             he0 with h | h
           · exact Or.inl h
           · exact Or.inr (Or.inr h))
    rcases hstep _ hw with h | h
    · rw [hlog] at h
      simp at h
    · rcases h with h | h
      · simp [LogEvent.isStateEvaluation] at h
      · simp [LogEvent.depth] at h
  · rw [hrun hc]
    exact ⟨XQ.fin v, by simp⟩

/-- C8 (witness): the leaf-decision statement evaluated on a fresh agent at
the kings-only state with depth already at maxDepth, so the node is a leaf:
it charges basicMinimaxCost plus stateEvaluationCost, returns the oracle
evaluation of one half, logs the stateEvaluation event at depth 1 and
publishes the value under the requested budget. -/
theorem claim_C8_witness :
    minimax tieOracle defaultCostSetup 1 1 kingsOnlyState 50 XQ.negInf
        XQ.posInf true initialSearchState =
      (.ok ⟨XQ.fin (1/2),
          defaultCostSetup.basicMinimaxCost + defaultCostSetup.stateEvaluationCost⟩,
       { initialSearchState with
           evalCalls := initialSearchState.evalCalls + 1,
           log := [LogEvent.stateEvaluation (XQ.fin (1/2)) 1],
           minimaxCache := (alSet initialSearchState.minimaxCache
             (hashGameState kingsOnlyState) ⟨.ok (XQ.fin (1/2)), 50⟩) }) :=
  (claim_C8_leaf_decision tieOracle defaultCostSetup 0 1 kingsOnlyState 50
    XQ.negInf XQ.posInf true initialSearchState none (1/2) rfl rfl
    (by decide) (by decide) rfl rfl).1 (Or.inl (by decide))
